import Mathlib

/-!
Verification of the mermaidgen diagram library: the entity model, the
deterministic rendering to mermaid text, and the compressed live-editor URL
export, shallowly embedded from the Go sources (flowchart/Flowchart.go and
gantt/Gantt.go).  Go byte strings are modelled as `List Nat` with every byte
below 256, Go strings as Lean `String`, and Go maps as insertion-ordered
association lists whose (unspecified) iteration order is passed explicitly
wherever the code ranges over a map.
-/

namespace MG

/-! UTF-8 encoding of text, as performed implicitly when a Go string is viewed
as bytes (the json.Marshal output bytes feed the zlib writer in LiveURL). -/

def utf8EncodeChar (c : Char) : List Nat :=
  let n := c.toNat
  if n < 128 then [n]
  else if n < 2048 then [192 + n / 64, 128 + n % 64]
  else if n < 65536 then [224 + n / 4096, 128 + n / 64 % 64, 128 + n % 64]
  else [240 + n / 262144, 128 + n / 4096 % 64, 128 + n / 64 % 64, 128 + n % 64]

def utf8Encode (cs : List Char) : List Nat := cs.flatMap utf8EncodeChar

/-! Inverse direction, used by the round-trip decoding of the exported URL:
reassemble code points from their UTF-8 byte sequences.  One helper per
multi-byte sequence length. -/

mutual

def utf8Decode : List Nat → Option (List Char)
  | [] => some []
  | b :: rest =>
    if b < 128 then (utf8Decode rest).map (fun cs => Char.ofNat b :: cs)
    else if b < 192 then none
    else if b < 224 then utf8Dec2 b rest
    else if b < 240 then utf8Dec3 b rest
    else if b < 248 then utf8Dec4 b rest
    else none
termination_by l => l.length

def utf8Dec2 : Nat → List Nat → Option (List Char)
  | b, b2 :: rest =>
    if (128 ≤ b2 ∧ b2 < 192) ∧ 128 ≤ (b - 192) * 64 + (b2 - 128) then
      (utf8Decode rest).map (fun cs => Char.ofNat ((b - 192) * 64 + (b2 - 128)) :: cs)
    else none
  | _, [] => none
termination_by _ l => l.length

def utf8Dec3 : Nat → List Nat → Option (List Char)
  | b, b2 :: b3 :: rest =>
    if ((128 ≤ b2 ∧ b2 < 192) ∧ (128 ≤ b3 ∧ b3 < 192)) ∧
        2048 ≤ (b - 224) * 4096 + (b2 - 128) * 64 + (b3 - 128) then
      (utf8Decode rest).map
        (fun cs => Char.ofNat ((b - 224) * 4096 + (b2 - 128) * 64 + (b3 - 128)) :: cs)
    else none
  | _, _ => none
termination_by _ l => l.length

def utf8Dec4 : Nat → List Nat → Option (List Char)
  | b, b2 :: b3 :: b4 :: rest =>
    if ((128 ≤ b2 ∧ b2 < 192) ∧ (128 ≤ b3 ∧ b3 < 192) ∧ (128 ≤ b4 ∧ b4 < 192)) ∧
        65536 ≤ (b - 240) * 262144 + (b2 - 128) * 4096 + (b3 - 128) * 64 + (b4 - 128) then
      (utf8Decode rest).map
        (fun cs =>
          Char.ofNat ((b - 240) * 262144 + (b2 - 128) * 4096 + (b3 - 128) * 64 + (b4 - 128))
            :: cs)
    else none
  | _, _ => none
termination_by _ l => l.length

end

theorem char_toNat_lt (c : Char) : c.toNat < 1114112 := by
  rcases c.valid with h | ⟨_, h2⟩
  · exact Nat.lt_trans h (by norm_num)
  · exact h2

theorem utf8Decode_encodeChar (c : Char) (rest : List Nat) :
    utf8Decode (utf8EncodeChar c ++ rest) =
      (utf8Decode rest).map (fun cs => c :: cs) := by
  have hlt := char_toNat_lt c
  have hofNat := Char.ofNat_toNat c
  by_cases h1 : c.toNat < 128
  · have he : utf8EncodeChar c ++ rest = c.toNat :: rest := by
      simp [utf8EncodeChar, if_pos h1]
    rw [he]
    simp only [utf8Decode, if_pos h1, hofNat]
  · by_cases h2 : c.toNat < 2048
    · have he : utf8EncodeChar c ++ rest =
          (192 + c.toNat / 64) :: (128 + c.toNat % 64) :: rest := by
        simp [utf8EncodeChar, if_neg h1, if_pos h2]
      rw [he]
      simp only [utf8Decode]
      rw [if_neg (by omega), if_neg (by omega), if_pos (by omega)]
      simp only [utf8Dec2]
      rw [if_pos (by omega)]
      have harith : (192 + c.toNat / 64 - 192) * 64 + (128 + c.toNat % 64 - 128) = c.toNat := by
        omega
      rw [harith, hofNat]
    · by_cases h3 : c.toNat < 65536
      · have he : utf8EncodeChar c ++ rest =
            (224 + c.toNat / 4096) :: (128 + c.toNat / 64 % 64) :: (128 + c.toNat % 64)
              :: rest := by
          simp [utf8EncodeChar, if_neg h1, if_neg h2, if_pos h3]
        rw [he]
        simp only [utf8Decode]
        rw [if_neg (by omega), if_neg (by omega), if_neg (by omega), if_pos (by omega)]
        simp only [utf8Dec3]
        rw [if_pos (by omega)]
        have harith : (224 + c.toNat / 4096 - 224) * 4096 + (128 + c.toNat / 64 % 64 - 128) *
            64 + (128 + c.toNat % 64 - 128) = c.toNat := by omega
        rw [harith, hofNat]
      · have he : utf8EncodeChar c ++ rest =
            (240 + c.toNat / 262144) :: (128 + c.toNat / 4096 % 64) ::
              (128 + c.toNat / 64 % 64) :: (128 + c.toNat % 64) :: rest := by
          simp [utf8EncodeChar, if_neg h1, if_neg h2, if_neg h3]
        rw [he]
        simp only [utf8Decode]
        rw [if_neg (by omega), if_neg (by omega), if_neg (by omega), if_neg (by omega),
          if_pos (by omega)]
        simp only [utf8Dec4]
        rw [if_pos (by omega)]
        have harith : (240 + c.toNat / 262144 - 240) * 262144 +
            (128 + c.toNat / 4096 % 64 - 128) * 4096 + (128 + c.toNat / 64 % 64 - 128) * 64 +
            (128 + c.toNat % 64 - 128) = c.toNat := by omega
        rw [harith, hofNat]

theorem utf8Decode_encode (cs : List Char) : utf8Decode (utf8Encode cs) = some cs := by
  induction cs with
  | nil => simp [utf8Encode, utf8Decode]
  | cons c rest ih =>
      have he : utf8Encode (c :: rest) = utf8EncodeChar c ++ utf8Encode rest := by
        simp [utf8Encode]
      rw [he, utf8Decode_encodeChar, ih]
      rfl

theorem utf8EncodeChar_lt (c : Char) : ∀ b ∈ utf8EncodeChar c, b < 256 := by
  have hlt := char_toNat_lt c
  intro b hb
  simp only [utf8EncodeChar] at hb
  by_cases h1 : c.toNat < 128
  · simp only [if_pos h1, List.mem_singleton] at hb; omega
  · by_cases h2 : c.toNat < 2048
    · simp only [if_neg h1, if_pos h2, List.mem_cons, List.not_mem_nil, or_false] at hb
      rcases hb with hb | hb <;> omega
    · by_cases h3 : c.toNat < 65536
      · simp only [if_neg h1, if_neg h2, if_pos h3, List.mem_cons, List.not_mem_nil,
          or_false] at hb
        rcases hb with hb | hb | hb <;> omega
      · simp only [if_neg h1, if_neg h2, if_neg h3, List.mem_cons, List.not_mem_nil,
          or_false] at hb
        rcases hb with hb | hb | hb | hb <;> omega

theorem utf8Encode_lt (cs : List Char) : ∀ b ∈ utf8Encode cs, b < 256 := by
  intro b hb
  simp only [utf8Encode, List.mem_flatMap] at hb
  rcases hb with ⟨c, _, hbc⟩
  exact utf8EncodeChar_lt c b hbc

/-! URL-safe base64 with padding, the embedding of Go's
`base64.URLEncoding.EncodeToString` (RFC 4648 alphabet with `-` and `_`)
used by LiveURL, together with the decoder the claim measures it against. -/

def b64Char (n : Nat) : Char :=
  if n < 26 then Char.ofNat (65 + n)
  else if n < 52 then Char.ofNat (97 + (n - 26))
  else if n < 62 then Char.ofNat (48 + (n - 52))
  else if n = 62 then '-'
  else '_'

def b64Val (c : Char) : Option Nat :=
  let n := c.toNat
  if 65 ≤ n ∧ n ≤ 90 then some (n - 65)
  else if 97 ≤ n ∧ n ≤ 122 then some (26 + (n - 97))
  else if 48 ≤ n ∧ n ≤ 57 then some (52 + (n - 48))
  else if c = '-' then some 62
  else if c = '_' then some 63
  else none

def b64Encode : List Nat → List Char
  | [] => []
  | [b1] => [b64Char (b1 / 4), b64Char (b1 % 4 * 16), '=', '=']
  | [b1, b2] =>
      [b64Char (b1 / 4), b64Char (b1 % 4 * 16 + b2 / 16), b64Char (b2 % 16 * 4), '=']
  | b1 :: b2 :: b3 :: rest =>
      b64Char (b1 / 4) :: b64Char (b1 % 4 * 16 + b2 / 16) ::
        b64Char (b2 % 16 * 4 + b3 / 64) :: b64Char (b3 % 64) :: b64Encode rest

def b64Decode : List Char → Option (List Nat)
  | [] => some []
  | c1 :: c2 :: c3 :: c4 :: rest =>
    match b64Val c1, b64Val c2, b64Val c3, b64Val c4 with
    | some v1, some v2, some v3, some v4 =>
        (b64Decode rest).map
          (fun tl =>
            (v1 * 4 + v2 / 16) :: (v2 % 16 * 16 + v3 / 4) :: (v3 % 4 * 64 + v4) :: tl)
    | some v1, some v2, some v3, none =>
        if c4 = '=' ∧ rest = [] ∧ v3 % 4 = 0 then
          some [v1 * 4 + v2 / 16, v2 % 16 * 16 + v3 / 4]
        else none
    | some v1, some v2, none, none =>
        if c3 = '=' ∧ c4 = '=' ∧ rest = [] ∧ v2 % 16 = 0 then some [v1 * 4 + v2 / 16]
        else none
    | _, _, _, _ => none
  | _ => none

theorem b64Val_b64Char : ∀ n < 64, b64Val (b64Char n) = some n := by decide

theorem b64Val_pad : b64Val (Char.ofNat 61) = none := by decide

theorem b64Decode_encode :
    ∀ l : List Nat, (∀ b ∈ l, b < 256) → b64Decode (b64Encode l) = some l
  | [], _ => rfl
  | [b1], h => by
      have hb1 : b1 < 256 := h b1 (by simp)
      have e1 := b64Val_b64Char (b1 / 4) (by omega)
      have e2 := b64Val_b64Char (b1 % 4 * 16) (by omega)
      have hpad : b64Val '=' = none := b64Val_pad
      have hm : b1 % 4 * 16 % 16 = 0 := by omega
      have harith : b1 / 4 * 4 + b1 % 4 * 16 / 16 = b1 := by omega
      simp only [b64Encode, b64Decode, e1, e2, hpad]
      split <;> simp_all
  | [b1, b2], h => by
      have hb1 : b1 < 256 := h b1 (by simp)
      have hb2 : b2 < 256 := h b2 (by simp)
      have e1 := b64Val_b64Char (b1 / 4) (by omega)
      have e2 := b64Val_b64Char (b1 % 4 * 16 + b2 / 16) (by omega)
      have e3 := b64Val_b64Char (b2 % 16 * 4) (by omega)
      have hpad : b64Val '=' = none := b64Val_pad
      have hm : b2 % 16 * 4 % 4 = 0 := by omega
      have h1 : b1 / 4 * 4 + (b1 % 4 * 16 + b2 / 16) / 16 = b1 := by omega
      have h2 : (b1 % 4 * 16 + b2 / 16) % 16 * 16 + b2 % 16 * 4 / 4 = b2 := by omega
      simp only [b64Encode, b64Decode, e1, e2, e3, hpad]
      split <;> simp_all
  | [b1, b2, b3], h => by
      have hb1 : b1 < 256 := h b1 (by simp)
      have hb2 : b2 < 256 := h b2 (by simp)
      have hb3 : b3 < 256 := h b3 (by simp)
      have e1 := b64Val_b64Char (b1 / 4) (by omega)
      have e2 := b64Val_b64Char (b1 % 4 * 16 + b2 / 16) (by omega)
      have e3 := b64Val_b64Char (b2 % 16 * 4 + b3 / 64) (by omega)
      have e4 := b64Val_b64Char (b3 % 64) (by omega)
      have h1 : b1 / 4 * 4 + (b1 % 4 * 16 + b2 / 16) / 16 = b1 := by omega
      have h2 : (b1 % 4 * 16 + b2 / 16) % 16 * 16 + (b2 % 16 * 4 + b3 / 64) / 4 = b2 := by
        omega
      have h3 : (b2 % 16 * 4 + b3 / 64) % 4 * 64 + b3 % 64 = b3 := by omega
      simp only [b64Encode, b64Decode, e1, e2, e3, e4]
      simp_all
  | b1 :: b2 :: b3 :: b4 :: rest, h => by
      have hb1 : b1 < 256 := h b1 (by simp)
      have hb2 : b2 < 256 := h b2 (by simp)
      have hb3 : b3 < 256 := h b3 (by simp)
      have ih := b64Decode_encode (b4 :: rest) (fun b hb => h b (by simp_all))
      have e1 := b64Val_b64Char (b1 / 4) (by omega)
      have e2 := b64Val_b64Char (b1 % 4 * 16 + b2 / 16) (by omega)
      have e3 := b64Val_b64Char (b2 % 16 * 4 + b3 / 64) (by omega)
      have e4 := b64Val_b64Char (b3 % 64) (by omega)
      have h1 : b1 / 4 * 4 + (b1 % 4 * 16 + b2 / 16) / 16 = b1 := by omega
      have h2 : (b1 % 4 * 16 + b2 / 16) % 16 * 16 + (b2 % 16 * 4 + b3 / 64) / 4 = b2 := by
        omega
      have h3 : (b2 % 16 * 4 + b3 / 64) % 4 * 64 + b3 % 64 = b3 := by omega
      simp only [b64Encode, b64Decode, e1, e2, e3, e4, ih]
      simp_all

/-! Model of Go's compress/zlib writer as called by LiveURL
(`zlib.NewWriterLevel(&b, zlib.BestCompression)` + Write + Close).  The exact
compressed bit-stream produced by the DEFLATE encoder is a library
implementation detail; we model a conformant zlib stream built from stored
(uncompressed) blocks — RFC 1950 header, RFC 1951 stored blocks with
LEN/NLEN, Adler-32 trailer — together with a faithful inflater for such
streams.  The round-trip law `inflate (deflate data) = data` is the library
contract every claim about the export depends on. -/

def adler32 (data : List Nat) : Nat :=
  let p := data.foldl
    (fun (ab : Nat × Nat) b => ((ab.1 + b) % 65521, (ab.2 + ab.1 + b) % 65521)) (1, 0)
  p.2 * 65536 + p.1

def adlerBytes (data : List Nat) : List Nat :=
  let a := adler32 data
  [a / 16777216 % 256, a / 65536 % 256, a / 256 % 256, a % 256]

def storedBlocks (data : List Nat) : List Nat :=
  if data.length ≤ 65535 then
    1 :: data.length % 256 :: data.length / 256 ::
      (65535 - data.length) % 256 :: (65535 - data.length) / 256 :: data
  else
    0 :: 255 :: 255 :: 0 :: 0 :: (data.take 65535 ++ storedBlocks (data.drop 65535))
termination_by data.length
decreasing_by simp only [List.length_drop]; omega

def zlibDeflate (data : List Nat) : List Nat :=
  120 :: 1 :: (storedBlocks data ++ adlerBytes data)

def readBlocks : Nat → List Nat → Option (List Nat × List Nat)
  | 0, _ => none
  | fuel + 1, bfinal :: l0 :: l1 :: n0 :: n1 :: rest =>
      let len := l0 + 256 * l1
      if (bfinal = 0 ∨ bfinal = 1) ∧ n0 + 256 * n1 = 65535 - len ∧ len ≤ rest.length then
        if bfinal = 1 then some (rest.take len, rest.drop len)
        else (readBlocks fuel (rest.drop len)).map (fun p => (rest.take len ++ p.1, p.2))
      else none
  | _, _ => none

def zlibInflate (bytes : List Nat) : Option (List Nat) :=
  match bytes with
  | b0 :: b1 :: rest =>
    if b0 % 16 = 8 ∧ (b0 * 256 + b1) % 31 = 0 ∧ b1 / 32 % 2 = 0 then
      match readBlocks (rest.length + 1) rest with
      | some (data, trailer) => if trailer = adlerBytes data then some data else none
      | none => none
    else none
  | _ => none

theorem length_le_storedBlocks (data : List Nat) :
    data.length ≤ (storedBlocks data).length := by
  induction data using storedBlocks.induct with
  | case1 data h =>
      rw [storedBlocks, if_pos h]
      simp only [List.length_cons]
      omega
  | case2 data h ih =>
      rw [storedBlocks, if_neg h]
      simp only [List.length_cons, List.length_append, List.length_take, List.length_drop] at *
      omega

theorem readBlocks_stored :
    ∀ (fuel : Nat) (data trailer : List Nat), data.length ≤ fuel * 65535 → 1 ≤ fuel →
      readBlocks fuel (storedBlocks data ++ trailer) = some (data, trailer) := by
  intro fuel
  induction fuel with
  | zero => intro data trailer _ h1; omega
  | succ fuel ih =>
      intro data trailer hlen _
      by_cases hle : data.length ≤ 65535
      · rw [storedBlocks, if_pos hle]
        simp only [List.cons_append]
        simp only [readBlocks]
        rw [if_pos ?side]
        case side =>
          refine ⟨by simp, by omega, ?_⟩
          simp only [List.length_append]
          omega
        rw [if_pos (by simp)]
        have hl : data.length = data.length % 256 + 256 * (data.length / 256) := by omega
        rw [List.take_left' hl, List.drop_left' hl]
      · rw [storedBlocks, if_neg hle]
        simp only [List.cons_append, List.append_assoc]
        simp only [readBlocks]
        have htl : (data.take 65535).length = 65535 := by
          simp only [List.length_take]
          omega
        rw [if_pos ?cond]
        case cond =>
          refine ⟨by simp, by norm_num, ?_⟩
          simp only [List.length_append, htl]
          omega
        rw [if_neg (by simp)]
        have h255 : (255 + 256 * 255 : Nat) = 65535 := by norm_num
        rw [h255, List.take_left' htl, List.drop_left' htl]
        rw [ih (data.drop 65535) trailer (by simp only [List.length_drop]; omega) (by omega)]
        show some (data.take 65535 ++ data.drop 65535, trailer) = some (data, trailer)
        rw [List.take_append_drop]

theorem zlibInflate_deflate (data : List Nat) :
    zlibInflate (zlibDeflate data) = some data := by
  have hge := length_le_storedBlocks data
  have hlen : data.length ≤ ((storedBlocks data ++ adlerBytes data).length + 1) * 65535 := by
    simp only [List.length_append]
    omega
  rw [zlibDeflate]
  simp only [zlibInflate]
  rw [if_pos (by norm_num)]
  rw [readBlocks_stored _ data (adlerBytes data) hlen (by omega)]
  show (if adlerBytes data = adlerBytes data then some data else none) = some data
  rw [if_pos rfl]

theorem storedBlocks_lt (data : List Nat) (h : ∀ b ∈ data, b < 256) :
    ∀ b ∈ storedBlocks data, b < 256 := by
  induction data using storedBlocks.induct with
  | case1 data hle =>
      rw [storedBlocks, if_pos hle]
      intro b hb
      simp only [List.mem_cons] at hb
      rcases hb with hb | hb | hb | hb | hb | hb
      · omega
      · omega
      · omega
      · omega
      · omega
      · exact h b hb
  | case2 data hle ih =>
      rw [storedBlocks, if_neg hle]
      intro b hb
      simp only [List.mem_cons, List.mem_append] at hb
      rcases hb with hb | hb | hb | hb | hb | hb | hb
      · omega
      · omega
      · omega
      · omega
      · omega
      · exact h b (List.mem_of_mem_take hb)
      · exact ih (fun b hb => h b (List.mem_of_mem_drop hb)) b hb

theorem zlibDeflate_lt (data : List Nat) (h : ∀ b ∈ data, b < 256) :
    ∀ b ∈ zlibDeflate data, b < 256 := by
  intro b hb
  simp only [zlibDeflate, List.mem_cons, List.mem_append] at hb
  rcases hb with hb | hb | hb | hb
  · omega
  · omega
  · exact storedBlocks_lt data h b hb
  · simp only [adlerBytes, List.mem_cons, List.not_mem_nil, or_false] at hb
    rcases hb with hb | hb | hb | hb <;> omega

/-! JSON layer.  `json.Marshal(dataJSON{Code: text, Mermaid: mermaidJSON{Theme:
"default"}})` produces the bytes of `);"code":<quoted>,"mermaid":);"theme":"default"((`
with braces written here as parentheses; the quoted string uses Go's encoder
escaping (`"` `\` control characters, HTML characters `<` `>` `&`, and
U+2028/U+2029).  The parser below is what the round-trip claim measures the
payload against. -/

def lbraceChar : Char := Char.ofNat 123

def rbraceChar : Char := Char.ofNat 125

def hexDigitChar (n : Nat) : Char :=
  if n < 10 then Char.ofNat (48 + n) else Char.ofNat (87 + n)

def goEscapeChar (c : Char) : List Char :=
  let n := c.toNat
  if c = '"' then ['\\', '"']
  else if c = '\\' then ['\\', '\\']
  else if c = '\n' then ['\\', 'n']
  else if c = '\r' then ['\\', 'r']
  else if c = '\t' then ['\\', 't']
  else if n < 32 then ['\\', 'u', '0', '0', hexDigitChar (n / 16), hexDigitChar (n % 16)]
  else if c = '<' ∨ c = '>' ∨ c = '&' then
    ['\\', 'u', '0', '0', hexDigitChar (n / 16), hexDigitChar (n % 16)]
  else if n = 8232 ∨ n = 8233 then ['\\', 'u', '2', '0', '2', hexDigitChar (n % 16)]
  else [c]

/-- Quoted JSON string (opening quote, escaped contents, closing quote)
followed by a continuation `k`; `json.Marshal` emits exactly this for a
string field value. -/
def qstr (s : String) (k : List Char) : List Char :=
  '"' :: (s.data.flatMap goEscapeChar ++ ('"' :: k))

/-- Quoted JSON object key followed by `:` and a continuation `k`. -/
def qkey (s : String) (k : List Char) : List Char :=
  '"' :: (s.data.flatMap goEscapeChar ++ ('"' :: (':' :: k)))

/-- The exact character sequence of `json.Marshal` on the `dataJSON` record:
two fields in struct order (`code`, then `mermaid` whose object has the single
field `theme` fixed to `"default"`), no whitespace. -/
def jsonMarshalChars (code : String) : List Char :=
  lbraceChar ::
    qkey "code"
      (qstr code
        (',' ::
          qkey "mermaid"
            (lbraceChar ::
              qkey "theme" (qstr "default" [rbraceChar, rbraceChar]))))

inductive JValue where
  | str (s : String)
  | obj (members : List (String × JValue))

/-- The record the spec says the payload decodes to: exactly the two keys
`code` and `mermaid`, with `mermaid` holding exactly the key `theme` fixed to
`"default"`. -/
def dataJValue (code : String) : JValue :=
  JValue.obj [("code", JValue.str code), ("mermaid", JValue.obj [("theme", JValue.str "default")])]

def hexVal (c : Char) : Option Nat :=
  let n := c.toNat
  if 48 ≤ n ∧ n ≤ 57 then some (n - 48)
  else if 97 ≤ n ∧ n ≤ 102 then some (n - 87)
  else if 65 ≤ n ∧ n ≤ 70 then some (n - 55)
  else none

def hex4 (h1 h2 h3 h4 : Char) : Option Nat :=
  match hexVal h1, hexVal h2, hexVal h3, hexVal h4 with
  | some v1, some v2, some v3, some v4 => some (v1 * 4096 + v2 * 256 + v3 * 16 + v4)
  | _, _, _, _ => none

def unescChar (e : Char) : Char :=
  if e = 'n' then '\n'
  else if e = 'r' then '\r'
  else if e = 't' then '\t'
  else if e = 'b' then Char.ofNat 8
  else if e = 'f' then Char.ofNat 12
  else e

mutual

def parseJString : List Char → Option (List Char × List Char)
  | [] => none
  | c :: rest =>
    if c = '"' then some ([], rest)
    else if c = '\\' then parseEsc rest
    else (parseJString rest).map (fun p => (c :: p.1, p.2))
termination_by l => l.length

def parseEsc : List Char → Option (List Char × List Char)
  | [] => none
  | e :: rest2 =>
    if e = 'u' then parseEscU rest2
    else if e = '"' ∨ e = '\\' ∨ e = '/' ∨ e = 'n' ∨ e = 'r' ∨ e = 't' ∨ e = 'b' ∨
        e = 'f' then
      (parseJString rest2).map (fun p => (unescChar e :: p.1, p.2))
    else none
termination_by l => l.length

def parseEscU : List Char → Option (List Char × List Char)
  | h1 :: h2 :: h3 :: h4 :: rest6 =>
    match hex4 h1 h2 h3 h4 with
    | some n => (parseJString rest6).map (fun p => (Char.ofNat n :: p.1, p.2))
    | none => none
  | _ => none
termination_by l => l.length

end

def wsChar (c : Char) : Bool := c = ' ' || c = '\t' || c = '\n' || c = '\r'

def skipWs (l : List Char) : List Char := l.dropWhile wsChar

mutual

def parseJValue (fuel : Nat) (cs : List Char) : Option (JValue × List Char) :=
  parseValueCore fuel (skipWs cs)
termination_by (fuel, 9)

def parseValueCore : Nat → List Char → Option (JValue × List Char)
  | 0, _ => none
  | _, [] => none
  | fuel + 1, c :: rest =>
    if c = '"' then (parseJString rest).map (fun p => (JValue.str (String.mk p.1), p.2))
    else if c = lbraceChar then parseObjCore fuel (skipWs rest)
    else none
termination_by fuel _ => (fuel, 8)

def parseObjCore : Nat → List Char → Option (JValue × List Char)
  | _, [] => none
  | fuel, c2 :: rest2 =>
    if c2 = rbraceChar then some (JValue.obj [], rest2)
    else (parseMembers fuel (c2 :: rest2)).map (fun p => (JValue.obj p.1, p.2))
termination_by fuel _ => (fuel, 7)

def parseMembers : Nat → List Char → Option (List (String × JValue) × List Char)
  | _, [] => none
  | fuel, c :: rest =>
    if c = '"' then parseMemKey fuel (parseJString rest) else none
termination_by fuel _ => (fuel, 6)

def parseMemKey : Nat → Option (List Char × List Char) →
    Option (List (String × JValue) × List Char)
  | _, none => none
  | fuel, some (key, rest2) => parseMemColon fuel key (skipWs rest2)
termination_by fuel _ => (fuel, 5)

def parseMemColon : Nat → List Char → List Char →
    Option (List (String × JValue) × List Char)
  | 0, _, _ => none
  | _, _, [] => none
  | fuel + 1, key, c2 :: rest3 =>
    if c2 = ':' then parseMemValue fuel key (parseJValue fuel rest3) else none
termination_by fuel _ _ => (fuel, 4)

def parseMemValue : Nat → List Char → Option (JValue × List Char) →
    Option (List (String × JValue) × List Char)
  | _, _, none => none
  | fuel, key, some (v, rest4) => parseMemNext fuel key v (skipWs rest4)
termination_by fuel _ _ => (fuel, 3)

def parseMemNext : Nat → List Char → JValue → List Char →
    Option (List (String × JValue) × List Char)
  | _, _, _, [] => none
  | 0, key, v, c3 :: rest5 =>
      if c3 = rbraceChar then some ([(String.mk key, v)], rest5) else none
  | fuel + 1, key, v, c3 :: rest5 =>
      if c3 = ',' then
        (parseMembers fuel (skipWs rest5)).map (fun p => ((String.mk key, v) :: p.1, p.2))
      else if c3 = rbraceChar then some ([(String.mk key, v)], rest5)
      else none
termination_by fuel _ _ _ => (fuel, 2)

end

def jsonParse (cs : List Char) : Option JValue :=
  match parseJValue (cs.length + 1) cs with
  | some (v, rest) => if skipWs rest = [] then some v else none
  | none => none

theorem hexVal_hexDigitChar : ∀ m < 16, hexVal (hexDigitChar m) = some m := by decide

theorem hex4_digits00 (a b : Nat) (ha : a < 16) (hb : b < 16) :
    hex4 '0' '0' (hexDigitChar a) (hexDigitChar b) = some (a * 16 + b) := by
  have hz : hexVal '0' = some 0 := by decide
  have h3 := hexVal_hexDigitChar a ha
  have h4 := hexVal_hexDigitChar b hb
  simp only [hex4, hz, h3, h4]
  norm_num

theorem hex4_digits202 (b : Nat) (hb : b < 16) :
    hex4 '2' '0' '2' (hexDigitChar b) = some (8224 + b) := by
  have h0 : hexVal '0' = some 0 := by decide
  have h2 : hexVal '2' = some 2 := by decide
  have h4 := hexVal_hexDigitChar b hb
  simp only [hex4, h2, h0, h4]

theorem parse_escPair (e : Char) (t : List Char)
    (he : e = '"' ∨ e = '\\' ∨ e = '/' ∨ e = 'n' ∨ e = 'r' ∨ e = 't' ∨ e = 'b' ∨ e = 'f')
    (hu : ¬e = 'u') :
    parseJString ('\\' :: e :: t) =
      (parseJString t).map (fun p => (unescChar e :: p.1, p.2)) := by
  simp only [parseJString, if_true]
  simp only [parseEsc]
  rw [if_neg hu, if_pos he, if_neg (show ¬('\\' = '"') from by decide)]

theorem parse_escU (h1 h2 h3 h4 : Char) (v : Nat) (t : List Char)
    (hv : hex4 h1 h2 h3 h4 = some v) :
    parseJString ('\\' :: 'u' :: h1 :: h2 :: h3 :: h4 :: t) =
      (parseJString t).map (fun p => (Char.ofNat v :: p.1, p.2)) := by
  simp only [parseJString, if_true]
  simp only [parseEsc, if_true]
  simp only [parseEscU]
  rw [hv, if_neg (show ¬('\\' = '"') from by decide)]

theorem parseJString_quote :
    ∀ (cs rest : List Char),
      parseJString (cs.flatMap goEscapeChar ++ ('"' :: rest)) = some (cs, rest)
  | [], rest => by
      show parseJString ('"' :: rest) = some ([], rest)
      simp only [parseJString, if_true]
  | c :: cs, rest => by
      have ih := parseJString_quote cs rest
      have hofNat := Char.ofNat_toNat c
      have hflat : (c :: cs).flatMap goEscapeChar ++ ('"' :: rest) =
          goEscapeChar c ++ (cs.flatMap goEscapeChar ++ ('"' :: rest)) := by
        simp
      rw [hflat]
      by_cases hq : c = '"'
      · subst hq
        rw [show goEscapeChar '"' = ['\\', '"'] from by decide]
        simp only [List.cons_append, List.nil_append]
        rw [parse_escPair _ _ (by decide) (by decide), ih]
        rw [show unescChar '"' = '"' from by decide]
        rfl
      · by_cases hb : c = '\\'
        · subst hb
          rw [show goEscapeChar '\\' = ['\\', '\\'] from by decide]
          simp only [List.cons_append, List.nil_append]
          rw [parse_escPair _ _ (by decide) (by decide), ih]
          rw [show unescChar '\\' = '\\' from by decide]
          rfl
        · by_cases hn : c = '\n'
          · subst hn
            rw [show goEscapeChar '\n' = ['\\', 'n'] from by decide]
            simp only [List.cons_append, List.nil_append]
            rw [parse_escPair _ _ (by decide) (by decide), ih]
            rw [show unescChar 'n' = '\n' from by decide]
            rfl
          · by_cases hr : c = '\r'
            · subst hr
              rw [show goEscapeChar '\r' = ['\\', 'r'] from by decide]
              simp only [List.cons_append, List.nil_append]
              rw [parse_escPair _ _ (by decide) (by decide), ih]
              rw [show unescChar 'r' = '\r' from by decide]
              rfl
            · by_cases ht : c = '\t'
              · subst ht
                rw [show goEscapeChar '\t' = ['\\', 't'] from by decide]
                simp only [List.cons_append, List.nil_append]
                rw [parse_escPair _ _ (by decide) (by decide), ih]
                rw [show unescChar 't' = '\t' from by decide]
                rfl
              · by_cases hctl : c.toNat < 32
                · have hesc : goEscapeChar c =
                      ['\\', 'u', '0', '0', hexDigitChar (c.toNat / 16),
                        hexDigitChar (c.toNat % 16)] := by
                    simp only [goEscapeChar]
                    rw [if_neg hq, if_neg hb, if_neg hn, if_neg hr, if_neg ht, if_pos hctl]
                  rw [hesc]
                  simp only [List.cons_append, List.nil_append]
                  rw [parse_escU _ _ _ _ (c.toNat / 16 * 16 + c.toNat % 16)
                    _ (hex4_digits00 _ _ (by omega) (by omega)), ih]
                  rw [show c.toNat / 16 * 16 + c.toNat % 16 = c.toNat from by omega, hofNat]
                  rfl
                · by_cases hhtml : c = '<' ∨ c = '>' ∨ c = '&'
                  · have hesc : goEscapeChar c =
                        ['\\', 'u', '0', '0', hexDigitChar (c.toNat / 16),
                          hexDigitChar (c.toNat % 16)] := by
                      simp only [goEscapeChar]
                      rw [if_neg hq, if_neg hb, if_neg hn, if_neg hr, if_neg ht,
                        if_neg hctl, if_pos hhtml]
                    have hsmall : c.toNat < 64 := by
                      rcases hhtml with h | h | h <;> subst h <;> decide
                    rw [hesc]
                    simp only [List.cons_append, List.nil_append]
                    rw [parse_escU _ _ _ _ (c.toNat / 16 * 16 + c.toNat % 16)
                      _ (hex4_digits00 _ _ (by omega) (by omega)), ih]
                    rw [show c.toNat / 16 * 16 + c.toNat % 16 = c.toNat from by omega, hofNat]
                    rfl
                  · by_cases hls : c.toNat = 8232 ∨ c.toNat = 8233
                    · have hesc : goEscapeChar c =
                          ['\\', 'u', '2', '0', '2', hexDigitChar (c.toNat % 16)] := by
                        simp only [goEscapeChar]
                        rw [if_neg hq, if_neg hb, if_neg hn, if_neg hr, if_neg ht,
                          if_neg hctl, if_neg hhtml, if_pos hls]
                      rw [hesc]
                      simp only [List.cons_append, List.nil_append]
                      rw [parse_escU _ _ _ _ (8224 + c.toNat % 16)
                        _ (hex4_digits202 _ (by omega)), ih]
                      rw [show 8224 + c.toNat % 16 = c.toNat from by omega, hofNat]
                      rfl
                    · have hesc : goEscapeChar c = [c] := by
                        simp only [goEscapeChar]
                        rw [if_neg hq, if_neg hb, if_neg hn, if_neg hr, if_neg ht,
                          if_neg hctl, if_neg hhtml, if_neg hls]
                      rw [hesc]
                      simp only [List.cons_append, List.nil_append]
                      simp only [parseJString]
                      rw [if_neg hq, if_neg hb, ih]
                      rfl

theorem skipWs_cons (c : Char) (l : List Char) (h : wsChar c = false) :
    skipWs (c :: l) = c :: l := by
  simp [skipWs, List.dropWhile_cons, h]

theorem parseValue_str (f : Nat) (l : List Char) :
    parseJValue (f + 1) ('"' :: l) =
      (parseJString l).map (fun p => (JValue.str (String.mk p.1), p.2)) := by
  simp only [parseJValue]
  rw [skipWs_cons _ _ (by decide)]
  simp only [parseValueCore]
  rw [if_pos trivial]

theorem parseValue_obj (f : Nat) (l : List Char) :
    parseJValue (f + 1) (lbraceChar :: '"' :: l) =
      (parseMembers f ('"' :: l)).map (fun p => (JValue.obj p.1, p.2)) := by
  simp only [parseJValue]
  rw [skipWs_cons _ _ (by decide)]
  simp only [parseValueCore]
  rw [if_pos trivial, skipWs_cons _ _ (by decide)]
  simp only [parseObjCore]
  rw [if_neg (show ¬(('"' : Char) = rbraceChar) from by decide),
    if_neg (show ¬(lbraceChar = '"') from by decide)]

theorem parseMembers_comma (f : Nat) (l key rest3 rest5 : List Char) (v : JValue)
    (hk : parseJString l = some (key, ':' :: rest3))
    (hv : parseJValue (f + 1) rest3 = some (v, ',' :: rest5)) :
    parseMembers (f + 2) ('"' :: l) =
      (parseMembers f (skipWs rest5)).map (fun p => ((String.mk key, v) :: p.1, p.2)) := by
  simp [parseMembers, parseMemKey, parseMemColon, parseMemValue, parseMemNext, hk, hv,
    skipWs, wsChar]

theorem parseMembers_close (f : Nat) (l key rest3 rest5 : List Char) (v : JValue)
    (hk : parseJString l = some (key, ':' :: rest3))
    (hv : parseJValue (f + 1) rest3 = some (v, rbraceChar :: rest5)) :
    parseMembers (f + 2) ('"' :: l) = some ([(String.mk key, v)], rest5) := by
  have hws : wsChar rbraceChar = false := by decide
  have hcolon : wsChar ':' = false := by decide
  have hcomma : ¬(rbraceChar = ',') := by decide
  simp [parseMembers, parseMemKey, parseMemColon, parseMemValue, parseMemNext, hk, hv,
    skipWs, hws, hcolon, hcomma, List.dropWhile_cons]

theorem parseJValue_marshal (i : Nat) (code : String) :
    parseJValue (i + 7) (jsonMarshalChars code) = some (dataJValue code, []) := by
  have hdef : parseJValue (i + 1)
      ('"' :: ("default".data.flatMap goEscapeChar ++ ('"' :: [rbraceChar, rbraceChar]))) =
      some (JValue.str "default", rbraceChar :: [rbraceChar]) := by
    have h := parseValue_str i
      ("default".data.flatMap goEscapeChar ++ ('"' :: [rbraceChar, rbraceChar]))
    rw [parseJString_quote] at h
    exact h
  have htheme : parseMembers (i + 2)
      ('"' :: ("theme".data.flatMap goEscapeChar ++
        ('"' :: (':' :: ('"' :: ("default".data.flatMap goEscapeChar ++
          ('"' :: [rbraceChar, rbraceChar]))))))) =
      some ([("theme", JValue.str "default")], [rbraceChar]) :=
    parseMembers_close i _ _ _ _ _ (parseJString_quote _ _) hdef
  have hinner : parseJValue (i + 3)
      (lbraceChar :: '"' :: ("theme".data.flatMap goEscapeChar ++
        ('"' :: (':' :: ('"' :: ("default".data.flatMap goEscapeChar ++
          ('"' :: [rbraceChar, rbraceChar]))))))) =
      some (JValue.obj [("theme", JValue.str "default")], rbraceChar :: []) := by
    have h := parseValue_obj (i + 2)
      ("theme".data.flatMap goEscapeChar ++
        ('"' :: (':' :: ('"' :: ("default".data.flatMap goEscapeChar ++
          ('"' :: [rbraceChar, rbraceChar]))))))
    rw [htheme] at h
    exact h
  have hmermaid : parseMembers (i + 4)
      ('"' :: ("mermaid".data.flatMap goEscapeChar ++
        ('"' :: (':' :: (lbraceChar :: '"' :: ("theme".data.flatMap goEscapeChar ++
          ('"' :: (':' :: ('"' :: ("default".data.flatMap goEscapeChar ++
            ('"' :: [rbraceChar, rbraceChar]))))))))))) =
      some ([("mermaid", JValue.obj [("theme", JValue.str "default")])], []) :=
    parseMembers_close (i + 2) _ _ _ _ _ (parseJString_quote _ _) hinner
  have hcode : parseJValue (i + 5)
      ('"' :: (code.data.flatMap goEscapeChar ++
        ('"' :: (',' :: ('"' :: ("mermaid".data.flatMap goEscapeChar ++
          ('"' :: (':' :: (lbraceChar :: '"' :: ("theme".data.flatMap goEscapeChar ++
            ('"' :: (':' :: ('"' :: ("default".data.flatMap goEscapeChar ++
              ('"' :: [rbraceChar, rbraceChar]))))))))))))))) =
      some (JValue.str code,
        ',' :: ('"' :: ("mermaid".data.flatMap goEscapeChar ++
          ('"' :: (':' :: (lbraceChar :: '"' :: ("theme".data.flatMap goEscapeChar ++
            ('"' :: (':' :: ('"' :: ("default".data.flatMap goEscapeChar ++
              ('"' :: [rbraceChar, rbraceChar])))))))))))) := by
    have h := parseValue_str (i + 4)
      (code.data.flatMap goEscapeChar ++
        ('"' :: (',' :: ('"' :: ("mermaid".data.flatMap goEscapeChar ++
          ('"' :: (':' :: (lbraceChar :: '"' :: ("theme".data.flatMap goEscapeChar ++
            ('"' :: (':' :: ('"' :: ("default".data.flatMap goEscapeChar ++
              ('"' :: [rbraceChar, rbraceChar]))))))))))))))
    rw [parseJString_quote] at h
    exact h
  have houter : parseMembers (i + 6)
      ('"' :: ("code".data.flatMap goEscapeChar ++
        ('"' :: (':' :: ('"' :: (code.data.flatMap goEscapeChar ++
          ('"' :: (',' :: ('"' :: ("mermaid".data.flatMap goEscapeChar ++
            ('"' :: (':' :: (lbraceChar :: '"' :: ("theme".data.flatMap goEscapeChar ++
              ('"' :: (':' :: ('"' :: ("default".data.flatMap goEscapeChar ++
                ('"' :: [rbraceChar, rbraceChar]))))))))))))))))))) =
      some ([("code", JValue.str code),
        ("mermaid", JValue.obj [("theme", JValue.str "default")])], []) := by
    have h := parseMembers_comma (i + 4)
      ("code".data.flatMap goEscapeChar ++
        ('"' :: (':' :: ('"' :: (code.data.flatMap goEscapeChar ++
          ('"' :: (',' :: ('"' :: ("mermaid".data.flatMap goEscapeChar ++
            ('"' :: (':' :: (lbraceChar :: '"' :: ("theme".data.flatMap goEscapeChar ++
              ('"' :: (':' :: ('"' :: ("default".data.flatMap goEscapeChar ++
                ('"' :: [rbraceChar, rbraceChar]))))))))))))))))))
      _ _ _ _ (parseJString_quote _ _) hcode
    rw [skipWs_cons _ _ (by decide), hmermaid] at h
    exact h
  have h := parseValue_obj (i + 6)
    ("code".data.flatMap goEscapeChar ++
      ('"' :: (':' :: ('"' :: (code.data.flatMap goEscapeChar ++
        ('"' :: (',' :: ('"' :: ("mermaid".data.flatMap goEscapeChar ++
          ('"' :: (':' :: (lbraceChar :: '"' :: ("theme".data.flatMap goEscapeChar ++
            ('"' :: (':' :: ('"' :: ("default".data.flatMap goEscapeChar ++
              ('"' :: [rbraceChar, rbraceChar]))))))))))))))))))
  rw [houter] at h
  exact h

theorem jsonMarshal_length (code : String) : 6 ≤ (jsonMarshalChars code).length := by
  simp only [jsonMarshalChars, qkey, qstr, List.length_cons, List.length_append]
  omega

theorem jsonParse_marshal (code : String) :
    jsonParse (jsonMarshalChars code) = some (dataJValue code) := by
  have hlen := jsonMarshal_length code
  obtain ⟨i, hi⟩ : ∃ i, (jsonMarshalChars code).length + 1 = i + 7 :=
    ⟨(jsonMarshalChars code).length - 6, by omega⟩
  rw [jsonParse, hi, parseJValue_marshal]
  show (if skipWs [] = ([] : List Char) then some (dataJValue code) else none) =
    some (dataJValue code)
  rw [if_pos (show skipWs [] = ([] : List Char) from rfl)]

/-! The compressed exporter.  Both Go files contain the identical LiveURL
code: marshal the `dataJSON` record for the rendered text, compress with the
zlib writer, base64url-encode, and append to the fixed live-editor base URL.
`decodeViewURL` is the decoding chain the round-trip claim specifies:
base64url-decode, zlib-inflate, JSON-parse. -/

def liveURLBase : String := "https://mermaid.live/view/#pako:"

def exportURL (text : String) : String :=
  liveURLBase ++ String.mk (b64Encode (zlibDeflate (utf8Encode (jsonMarshalChars text))))

def decodeViewURL (url : String) : Option JValue :=
  if url.data.take liveURLBase.data.length = liveURLBase.data then
    match b64Decode (url.data.drop liveURLBase.data.length) with
    | none => none
    | some bytes =>
      match zlibInflate bytes with
      | none => none
      | some inflated =>
        match utf8Decode inflated with
        | none => none
        | some cs => jsonParse cs
  else none

theorem decodeViewURL_exportURL (text : String) :
    decodeViewURL (exportURL text) = some (dataJValue text) := by
  have h64 := b64Decode_encode (zlibDeflate (utf8Encode (jsonMarshalChars text)))
    (zlibDeflate_lt _ (utf8Encode_lt _))
  have hdata : (exportURL text).data =
      liveURLBase.data ++ b64Encode (zlibDeflate (utf8Encode (jsonMarshalChars text))) := by
    simp [exportURL, String.data_append]
  simp only [decodeViewURL, hdata, List.take_left, List.drop_left]
  rw [if_pos trivial, h64]
  show (match zlibInflate (zlibDeflate (utf8Encode (jsonMarshalChars text))) with
    | none => none
    | some inflated =>
      match utf8Decode inflated with
      | none => none
      | some cs => jsonParse cs) = some (dataJValue text)
  rw [zlibInflate_deflate]
  show (match utf8Decode (utf8Encode (jsonMarshalChars text)) with
    | none => none
    | some cs => jsonParse cs) = some (dataJValue text)
  rw [utf8Decode_encode]
  show jsonParse (jsonMarshalChars text) = some (dataJValue text)
  exact jsonParse_marshal text

/-! Flowchart model, embedded from flowchart/Flowchart.go.  The NodeStyle,
EdgeStyle, Node, Edge and Subgraph types live in repository files that are
not under src/; their fields and rendering are modelled from the spec, as
documented on each definition.  Go maps become insertion-ordered association
lists; where the source ranges over a map, the iteration order is an explicit
argument. -/

def DirectionTopDown : String := "TB"

def DirectionBottomUp : String := "BT"

def DirectionRightLeft : String := "RL"

def DirectionLeftRight : String := "LR"

/-- Modelled from the spec: NodeStyle.go is not under src/.  A named bag of
visual attributes, created by Flowchart.NodeStyle with default stroke
width 1; the renderer emits one style-definition line per registered node
style, independently addressed by the style identifier. -/
structure NodeStyle where
  id : String
  Fill : String := ""
  StrokeWidth : Nat := 1

def NodeStyle.render (s : NodeStyle) : String :=
  "classDef " ++ s.id ++ " fill:" ++ s.Fill ++ ",stroke-width:" ++
    toString s.StrokeWidth ++ "px\n"

/-- Modelled from the spec: EdgeStyle.go is not under src/.  Rendered as a
`linkStyle <target> <attrs>` line; Flowchart.String substitutes the target
`default` into the default edge style's line. -/
structure EdgeStyle where
  id : String
  Stroke : String := ""
  StrokeWidth : Nat := 1

def EdgeStyle.render (s : EdgeStyle) (target : String) : String :=
  "linkStyle " ++ target ++ " stroke:" ++ s.Stroke ++ ",stroke-width:" ++
    toString s.StrokeWidth ++ "px\n"

/-- Modelled from the spec: Node.go is not under src/.  A node renders as
`id[shape-open]"label"[shape-close]`; AddNode creates nodes with the default
rectangle shape NShapeRect, encoded here by the default bracket pair. -/
structure Node where
  id : String
  ShapeOpen : String := "["
  ShapeClose : String := "]"
  Label : String := ""

def Node.renderGraph (n : Node) : String :=
  n.id ++ n.ShapeOpen ++ "\"" ++ n.Label ++ "\"" ++ n.ShapeClose ++ "\n"

def EShapeArrow : String := "-->"

/-- Modelled from the spec: Edge.go is not under src/.  An edge renders as
`from connector to`, optionally `|label|`, plus a `linkStyle` line keyed by
the edge's sequence index when a style is attached; AddEdge creates edges
with the default arrow shape EShapeArrow. -/
structure Edge where
  From : Node
  To : Node
  Shape : String := EShapeArrow
  Label : String := ""
  Style : Option EdgeStyle := none
  id : Nat := 0

def Edge.render (e : Edge) : String :=
  e.From.id ++ e.Shape ++ e.To.id ++
    (if e.Label = "" then "" else "|" ++ e.Label ++ "|") ++ "\n" ++
    (match e.Style with
     | some st => st.render (toString e.id)
     | none => "")

/-- Modelled from the spec: Subgraph.go is not under src/.  The subgraphs
lookup map stores the created subgraph; its back-reference to the flowchart
is a non-owning association never used for rendering, so it is not part of
the model. -/
structure Subgraph where
  id : String

/-- The interface-typed heterogeneous render list: top-level items are nodes
or subgraphs; a subgraph renders as a `subgraph id` … `end` block around its
own items, recursively (modelled from the spec, Subgraph.go not being under
src/). -/
inductive GraphItem where
  | node (n : Node)
  | subgraph (id : String) (items : List GraphItem)

mutual

def GraphItem.renderGraph : GraphItem → String
  | GraphItem.node n => n.renderGraph
  | GraphItem.subgraph id items => "subgraph " ++ id ++ "\n" ++ renderItems items ++ "end\n"

def renderItems : List GraphItem → String
  | [] => ""
  | item :: rest => item.renderGraph ++ renderItems rest

end

structure Flowchart where
  nodeStyles : List (String × NodeStyle) := []
  edgeStyles : List (String × EdgeStyle) := []
  subgraphs : List (String × Subgraph) := []
  nodes : List (String × Node) := []
  edges : List Edge := []
  items : List GraphItem := []
  Direction : String := DirectionTopDown
  DefaultEdgeStyle : Option EdgeStyle := none

def NewFlowchart : Flowchart := { Direction := DirectionTopDown }

/-- Go map lookup on the association-list model. -/
def alookup {α : Type} (m : List (String × α)) (k : String) : Option α :=
  (m.find? (fun p => p.1 == k)).map (fun p => p.2)

/-- Flowchart.String from the source, with the Go `for … range fc.nodeStyles`
map iteration made explicit: `order` is the sequence in which the loop visits
the registered styles (Go fixes no order; any permutation of the map's
entries can occur, afresh at each call). -/
def Flowchart.StringWithOrder (fc : Flowchart) (order : List (String × NodeStyle)) :
    String :=
  "graph " ++ fc.Direction ++ "\n" ++
    (match fc.DefaultEdgeStyle with
     | some es => es.render "default"
     | none => "") ++
    String.join (order.map (fun p => p.2.render)) ++
    "\n" ++
    String.join (fc.items.map GraphItem.renderGraph) ++
    "\n" ++
    String.join (fc.edges.map Edge.render)

def Flowchart.LiveURL (fc : Flowchart) (order : List (String × NodeStyle)) : String :=
  exportURL (fc.StringWithOrder order)

def Flowchart.NodeStyle (fc : Flowchart) (id : String) : MG.NodeStyle × Flowchart :=
  match alookup fc.nodeStyles id with
  | some s => (s, fc)
  | none =>
    let s : MG.NodeStyle := { id := id, StrokeWidth := 1 }
    (s, { fc with nodeStyles := fc.nodeStyles ++ [(id, s)] })

def Flowchart.EdgeStyle (fc : Flowchart) (id : String) : MG.EdgeStyle × Flowchart :=
  match alookup fc.edgeStyles id with
  | some s => (s, fc)
  | none =>
    let s : MG.EdgeStyle := { id := id, StrokeWidth := 1 }
    (s, { fc with edgeStyles := fc.edgeStyles ++ [(id, s)] })

def Flowchart.AddSubgraph (fc : Flowchart) (id : String) : Option Subgraph × Flowchart :=
  if (alookup fc.subgraphs id).isSome then (none, fc)
  else
    let s : Subgraph := { id := id }
    (some s,
      { fc with
        subgraphs := fc.subgraphs ++ [(id, s)],
        items := fc.items ++ [GraphItem.subgraph id []] })

def Flowchart.AddNode (fc : Flowchart) (id : String) : Option Node × Flowchart :=
  if (alookup fc.nodes id).isSome then (none, fc)
  else
    let n : Node := { id := id }
    (some n,
      { fc with
        nodes := fc.nodes ++ [(id, n)],
        items := fc.items ++ [GraphItem.node n] })

def Flowchart.AddEdge (fc : Flowchart) (a b : Node) : Edge × Flowchart :=
  let e : Edge := { From := a, To := b, Shape := EShapeArrow, id := fc.edges.length }
  (e, { fc with edges := fc.edges ++ [e] })

def Flowchart.GetSubgraph (fc : Flowchart) (id : String) : Option Subgraph :=
  alookup fc.subgraphs id

def Flowchart.GetNode (fc : Flowchart) (id : String) : Option Node :=
  alookup fc.nodes id

def Flowchart.GetEdge (fc : Flowchart) (index : Int) : Option Edge :=
  if index < 0 ∨ (fc.edges.length : Int) ≤ index then none
  else fc.edges[index.toNat]?

/-- ListSubgraphs iterates the subgraphs map into a fresh slice; `order` is
the unspecified Go map iteration order. -/
def Flowchart.ListSubgraphs (fc : Flowchart) (order : List (String × Subgraph)) :
    List Subgraph :=
  order.map (fun p => p.2)

/-- ListNodes iterates the nodes map into a fresh slice; `order` is the
unspecified Go map iteration order. -/
def Flowchart.ListNodes (fc : Flowchart) (order : List (String × Node)) : List Node :=
  order.map (fun p => p.2)

/-- ListEdges copies the edges slice (`make` + `copy`); the contents equal the
internal storage, the allocation freshness is modelled by the slice heap
below. -/
def Flowchart.ListEdges (fc : Flowchart) : List Edge := fc.edges

/-- One call of a flowchart-level add operation, for reasoning about
arbitrary sequences of add calls. -/
inductive AddOp where
  | node (id : String)
  | subgraph (id : String)

def Flowchart.applyAdd (fc : Flowchart) : AddOp → Flowchart
  | AddOp.node id => (fc.AddNode id).2
  | AddOp.subgraph id => (fc.AddSubgraph id).2

def applyAdds (fc : Flowchart) (ops : List AddOp) : Flowchart :=
  ops.foldl Flowchart.applyAdd fc

/-! Gantt model, embedded from gantt/Gantt.go.  Task.go and Section.go are
not under src/; the Task and Section types, their constructors and their
rendering are modelled from the spec as documented. -/

/-- Modelled from the spec: Task.go is not under src/.  A task has an
identifier, title, boolean status flags (critical, active, done) and
start/duration tokens; its line joins title, flags, identifier, start and
duration with the dialect's comma grammar. -/
structure Task where
  id : String
  Title : String := ""
  Critical : Bool := false
  Active : Bool := false
  Done : Bool := false
  Start : String := ""
  Duration : String := ""

def Task.render (t : Task) : String :=
  t.Title ++ " :" ++ (if t.Critical then "crit," else "") ++
    (if t.Active then "active," else "") ++ (if t.Done then "done," else "") ++
    t.id ++ "," ++ t.Start ++ "," ++ t.Duration ++ "\n"

/-- Modelled from the spec: Section.go is not under src/.  A section is an
ordered named grouping of tasks, rendered as a `section id` line followed by
its task lines in insertion order. -/
structure Section where
  id : String
  tasks : List Task := []

def Section.render (s : Section) : String :=
  "section " ++ s.id ++ "\n" ++ String.join (s.tasks.map Task.render)

structure Gantt where
  sectionsMap : List (String × Section) := []
  sections : List Section := []
  tasksMap : List (String × Task) := []
  tasks : List Task := []
  Title : String := ""
  AxisFormat : String := ""

/-- Values of Go's `interface\x7b\x7d` that client code can pass to NewGantt's
variadic initializer: strings, axisFormat values, and (representative of any
other type) integers and booleans. -/
inductive GoValue where
  | str (s : String)
  | axisFmt (s : String)
  | int (n : Int)
  | boolean (b : Bool)

def GoValue.isStr : GoValue → Bool
  | GoValue.str _ => true
  | _ => false

def GoValue.isAxisOk : GoValue → Bool
  | GoValue.str _ => true
  | GoValue.axisFmt _ => true
  | _ => false

/-- The `g.Title, ok = init[0].(string)` step of NewGantt (reached by
fallthrough after the AxisFormat case). -/
def ganttSetTitle (g : Gantt) : GoValue → Except String Gantt
  | GoValue.str v => Except.ok { g with Title := v }
  | _ => Except.error "value for Title was no string"

def NewGantt : List GoValue → Except String Gantt
  | [] => Except.ok {}
  | [t] => ganttSetTitle {} t
  | t :: a :: _ =>
    match a with
    | GoValue.axisFmt v => ganttSetTitle { AxisFormat := v } t
    | GoValue.str v => ganttSetTitle { AxisFormat := v } t
    | _ => Except.error "value for AxisFormat was no axisFormat"

/-- AddSection from the source; sectionNew (Section.go, not under src/) is
modelled from the spec: it fails when the identifier is already taken. -/
def Gantt.AddSection (g : Gantt) (id : String) : Except String (Section × Gantt) :=
  match alookup g.sectionsMap id with
  | some _ => Except.error "id already exists"
  | none =>
    let s : Section := { id := id }
    Except.ok (s,
      { g with
        sectionsMap := g.sectionsMap ++ [(id, s)],
        sections := g.sections ++ [s] })

/-- AddTask from the source; taskNew (Task.go, not under src/) is modelled
from the spec: it fails when the identifier is already taken in the
diagram-wide flat task namespace. -/
def Gantt.AddTask (g : Gantt) (id : String) : Except String (Task × Gantt) :=
  match alookup g.tasksMap id with
  | some _ => Except.error "id already exists"
  | none =>
    let t : Task := { id := id }
    Except.ok (t,
      { g with
        tasksMap := g.tasksMap ++ [(id, t)],
        tasks := g.tasks ++ [t] })

/-- Modelled from the spec: Section.AddTask (Section.go, not under src/)
registers the new task both in the diagram's flat task namespace
(`g.tasksMap`) and in the owning section's ordered task list. -/
def Gantt.AddTaskToSection (g : Gantt) (sid tid : String) : Except String (Task × Gantt) :=
  match alookup g.sectionsMap sid with
  | none => Except.error "no such section"
  | some _ =>
    match alookup g.tasksMap tid with
    | some _ => Except.error "id already exists"
    | none =>
      let t : Task := { id := tid }
      Except.ok (t,
        { g with
          tasksMap := g.tasksMap ++ [(tid, t)],
          sections := g.sections.map
            (fun s => if s.id = sid then { s with tasks := s.tasks ++ [t] } else s),
          sectionsMap := g.sectionsMap.map
            (fun p =>
              if p.1 = sid then (p.1, { p.2 with tasks := p.2.tasks ++ [t] }) else p) })

def Gantt.GetSection (g : Gantt) (id : String) : Option Section :=
  alookup g.sectionsMap id

def Gantt.GetTask (g : Gantt) (id : String) : Option Task :=
  alookup g.tasksMap id

/-- ListSections copies the sections slice (`make` + `copy`). -/
def Gantt.ListSections (g : Gantt) : List Section := g.sections

/-- ListLocalTasks copies the section-less tasks slice (`make` + `copy`). -/
def Gantt.ListLocalTasks (g : Gantt) : List Task := g.tasks

def charListLt : List Char → List Char → Bool
  | [], [] => false
  | [], _ :: _ => true
  | _ :: _, [] => false
  | a :: as, b :: bs =>
    if a.toNat < b.toNat then true
    else if b.toNat < a.toNat then false
    else charListLt as bs

/-- Go's `<` on strings: byte-wise lexicographic comparison, which on valid
UTF-8 text agrees with code-point lexicographic order. -/
def strLtB (a b : String) : Bool := charListLt a.data b.data

def insertTask (t : Task) : List Task → List Task
  | [] => [t]
  | u :: rest => if strLtB u.id t.id then u :: insertTask t rest else t :: u :: rest

/-- Model of `sort.Slice(allTasks, less := by id <)`: a sort of the list by
identifier.  Identifiers in the task map are distinct, so the sorted
permutation is unique and any correct sort denotes the same list. -/
def sortTasks : List Task → List Task
  | [] => []
  | t :: rest => insertTask t (sortTasks rest)

/-- ListTasks from the source, with the Go `for … range g.tasksMap` map
iteration made explicit as `order` (any permutation of the map's entries,
afresh at each call); the collected values are then sorted by ID. -/
def Gantt.ListTasks (g : Gantt) (order : List (String × Task)) : List Task :=
  sortTasks (order.map (fun p => p.2))

def Gantt.String (g : Gantt) : String :=
  "gantt\ndateFormat YYYY-MM-DDTHH:mm:ssZ\n" ++
    (if g.AxisFormat ≠ "" then "axisFormat " ++ g.AxisFormat ++ "\n" else "") ++
    (if g.Title ≠ "" then "title " ++ g.Title ++ "\n" else "") ++
    String.join (g.tasks.map Task.render) ++
    String.join (g.sections.map Section.render)

def Gantt.LiveURL (g : Gantt) := exportURL g.String

/-! Slice heap: a minimal model of Go slice allocation, used to state that
the list operations return freshly allocated slices.  Each cell holds the
contents of one backing array; a slice value is an index into the heap.
`listCopyAlloc` embeds the common shape of ListEdges, ListNodes,
ListSubgraphs, ListSections and ListLocalTasks — allocate a fresh backing
array and copy the source slice's contents
(`dst := make([]T, len(src)); copy(dst, src); return dst`). -/

structure SliceHeap (α : Type) where
  cells : List (List α)

def SliceHeap.read {α : Type} (h : SliceHeap α) (i : Nat) : List α := h.cells.getD i []

def SliceHeap.alloc {α : Type} (h : SliceHeap α) (contents : List α) : SliceHeap α × Nat :=
  ({ cells := h.cells ++ [contents] }, h.cells.length)

def SliceHeap.write {α : Type} (h : SliceHeap α) (i pos : Nat) (v : α) : SliceHeap α :=
  { cells := h.cells.set i ((h.cells.getD i []).set pos v) }

def listCopyAlloc {α : Type} (h : SliceHeap α) (src : Nat) : SliceHeap α × Nat :=
  h.alloc (h.read src)

theorem listCopyAlloc_fresh {α : Type} (h : SliceHeap α) (src pos : Nat) (v : α)
    (hsrc : src < h.cells.length) :
    (listCopyAlloc h src).2 ≠ src ∧
      (listCopyAlloc h src).1.read (listCopyAlloc h src).2 = h.read src ∧
      ((listCopyAlloc h src).1.write (listCopyAlloc h src).2 pos v).read src =
        h.read src := by
  refine ⟨by simp [listCopyAlloc, SliceHeap.alloc]; omega, ?_, ?_⟩
  · simp [listCopyAlloc, SliceHeap.alloc, SliceHeap.read, List.getD]
  · simp only [listCopyAlloc, SliceHeap.alloc, SliceHeap.write, SliceHeap.read,
      List.getD_eq_getElem?_getD]
    rw [List.getElem?_set_ne (by omega)]
    rw [List.getElem?_append, if_pos hsrc]

/-! Sequences of AddEdge calls, for the edge-ordering claim. -/

def addEdges (fc : Flowchart) (ps : List (Node × Node)) : Flowchart :=
  ps.foldl (fun f p => (f.AddEdge p.1 p.2).2) fc

/-- The edges a sequence of AddEdge calls creates, starting at sequence
index `o`. -/
def edgesFor (o : Nat) : List (Node × Node) → List Edge
  | [] => []
  | p :: rest =>
      { From := p.1, To := p.2, Shape := EShapeArrow, id := o } :: edgesFor (o + 1) rest

theorem addEdges_edges :
    ∀ (ps : List (Node × Node)) (fc : Flowchart),
      (addEdges fc ps).edges = fc.edges ++ edgesFor fc.edges.length ps
  | [], fc => by simp [addEdges, edgesFor]
  | p :: rest, fc => by
      have ih := addEdges_edges rest ((fc.AddEdge p.1 p.2).2)
      show (addEdges ((fc.AddEdge p.1 p.2).2) rest).edges = _
      rw [ih]
      simp [edgesFor, Flowchart.AddEdge]

theorem edgesFor_getElem :
    ∀ (ps : List (Node × Node)) (o n : Nat) (hn : n < ps.length),
      (edgesFor o ps)[n]? =
        some ⟨(ps.get ⟨n, hn⟩).1, (ps.get ⟨n, hn⟩).2, EShapeArrow, "", none, o + n⟩
  | p :: rest, o, 0, _ => by simp [edgesFor]
  | p :: rest, o, n + 1, h => by
      have ih := edgesFor_getElem rest (o + 1) n (by simpa using h)
      simp only [edgesFor, List.getElem?_cons_succ, ih, List.get]
      have harith : o + 1 + n = o + (n + 1) := by omega
      rw [harith]

theorem edgesFor_length : ∀ (ps : List (Node × Node)) (o : Nat),
    (edgesFor o ps).length = ps.length
  | [], _ => rfl
  | p :: rest, o => by simp [edgesFor, edgesFor_length rest]

theorem edgesFor_map : ∀ (ps : List (Node × Node)) (o : Nat),
    (edgesFor o ps).map (fun e => (e.From, e.To)) = ps
  | [], _ => rfl
  | p :: rest, o => by simp [edgesFor, edgesFor_map rest]

/-! Sequences of AddNode and AddSubgraph calls, for the duplicate-identifier
claim: after any sequence of adds, an identifier already used for the same
kind stays present in the lookup map. -/

theorem alookup_append_isSome {α : Type} (m1 m2 : List (String × α)) (k : String)
    (h : (alookup m1 k).isSome) : (alookup (m1 ++ m2) k).isSome := by
  simp only [alookup] at h ⊢
  rw [List.find?_append]
  rcases h1 : m1.find? (fun p => p.1 == k) with _ | p
  · rw [h1] at h; simp at h
  · rw [h1]; simp [Option.or]

theorem alookup_append_self {α : Type} (m : List (String × α)) (k : String) (v : α) :
    (alookup (m ++ [(k, v)]) k).isSome := by
  simp only [alookup]
  rw [List.find?_append]
  rcases h1 : m.find? (fun p => p.1 == k) with _ | p
  · rw [h1]; simp [List.find?, Option.or]
  · rw [h1]; simp [Option.or]

theorem applyAdd_node_mono (fc : Flowchart) (op : AddOp) (id : String)
    (h : (alookup fc.nodes id).isSome) :
    (alookup (fc.applyAdd op).nodes id).isSome := by
  cases op with
  | node id2 =>
      simp only [Flowchart.applyAdd, Flowchart.AddNode]
      by_cases h2 : (alookup fc.nodes id2).isSome
      · rw [if_pos h2]; exact h
      · rw [if_neg h2]; exact alookup_append_isSome _ _ _ h
  | subgraph id2 =>
      simp only [Flowchart.applyAdd, Flowchart.AddSubgraph]
      by_cases h2 : (alookup fc.subgraphs id2).isSome
      · rw [if_pos h2]; exact h
      · rw [if_neg h2]; exact h

theorem applyAdd_subgraph_mono (fc : Flowchart) (op : AddOp) (id : String)
    (h : (alookup fc.subgraphs id).isSome) :
    (alookup (fc.applyAdd op).subgraphs id).isSome := by
  cases op with
  | node id2 =>
      simp only [Flowchart.applyAdd, Flowchart.AddNode]
      by_cases h2 : (alookup fc.nodes id2).isSome
      · rw [if_pos h2]; exact h
      · rw [if_neg h2]; exact h
  | subgraph id2 =>
      simp only [Flowchart.applyAdd, Flowchart.AddSubgraph]
      by_cases h2 : (alookup fc.subgraphs id2).isSome
      · rw [if_pos h2]; exact h
      · rw [if_neg h2]; exact alookup_append_isSome _ _ _ h

theorem applyAdds_node_isSome :
    ∀ (ops : List AddOp) (fc : Flowchart) (id : String),
      AddOp.node id ∈ ops ∨ (alookup fc.nodes id).isSome →
      (alookup (applyAdds fc ops).nodes id).isSome
  | [], fc, id, h => by
      rcases h with h | h
      · simp at h
      · simpa [applyAdds] using h
  | op :: rest, fc, id, h => by
      show (alookup (applyAdds (fc.applyAdd op) rest).nodes id).isSome
      apply applyAdds_node_isSome rest
      rcases h with h | h
      · rcases List.mem_cons.mp h with h | h
        · subst h
          right
          simp only [Flowchart.applyAdd, Flowchart.AddNode]
          by_cases h2 : (alookup fc.nodes id).isSome
          · rw [if_pos h2]; exact h2
          · rw [if_neg h2]; exact alookup_append_self _ _ _
        · exact Or.inl h
      · exact Or.inr (applyAdd_node_mono fc op id h)

theorem applyAdds_subgraph_isSome :
    ∀ (ops : List AddOp) (fc : Flowchart) (id : String),
      AddOp.subgraph id ∈ ops ∨ (alookup fc.subgraphs id).isSome →
      (alookup (applyAdds fc ops).subgraphs id).isSome
  | [], fc, id, h => by
      rcases h with h | h
      · simp at h
      · simpa [applyAdds] using h
  | op :: rest, fc, id, h => by
      show (alookup (applyAdds (fc.applyAdd op) rest).subgraphs id).isSome
      apply applyAdds_subgraph_isSome rest
      rcases h with h | h
      · rcases List.mem_cons.mp h with h | h
        · subst h
          right
          simp only [Flowchart.applyAdd, Flowchart.AddSubgraph]
          by_cases h2 : (alookup fc.subgraphs id).isSome
          · rw [if_pos h2]; exact h2
          · rw [if_neg h2]; exact alookup_append_self _ _ _
        · exact Or.inl h
      · exact Or.inr (applyAdd_subgraph_mono fc op id h)

/-! The string order used by ListTasks is a strict total order; with distinct
identifiers the sorted permutation of the task map's values is unique. -/

theorem charListLt_asymm :
    ∀ a b : List Char, charListLt a b = true → charListLt b a = false
  | [], [] => by simp [charListLt]
  | [], c :: cs => by simp [charListLt]
  | c :: cs, [] => by simp [charListLt]
  | a :: as, b :: bs => by
      intro h
      simp only [charListLt] at h ⊢
      by_cases hab : a.toNat < b.toNat
      · rw [if_neg (by omega), if_pos hab]
      · rw [if_neg hab] at h
        by_cases hba : b.toNat < a.toNat
        · rw [if_pos hba] at h
          exact absurd h (by simp)
        · rw [if_neg hba] at h
          rw [if_neg hba, if_neg hab]
          exact charListLt_asymm as bs h

theorem charListLt_conn :
    ∀ a b : List Char, charListLt a b = false → charListLt b a = false → a = b
  | [], [] => by intro _ _; rfl
  | [], c :: cs => by simp [charListLt]
  | c :: cs, [] => by intro _ h2; simp [charListLt] at h2
  | a :: as, b :: bs => by
      intro h1 h2
      simp only [charListLt] at h1 h2
      by_cases hab : a.toNat < b.toNat
      · rw [if_pos hab] at h1; exact absurd h1 (by simp)
      · by_cases hba : b.toNat < a.toNat
        · rw [if_pos hba] at h2; exact absurd h2 (by simp)
        · rw [if_neg hab, if_neg hba] at h1
          rw [if_neg hba, if_neg hab] at h2
          have hn : a.toNat = b.toNat := by omega
          have hc : a = b := by
            have h3 := congrArg Char.ofNat hn
            rwa [Char.ofNat_toNat, Char.ofNat_toNat] at h3
          rw [hc, charListLt_conn as bs h1 h2]

theorem charListLt_trans :
    ∀ a b c : List Char, charListLt a b = true → charListLt b c = true →
      charListLt a c = true
  | [], b, [] => by
      intro _ h2
      exact absurd h2 (by cases b <;> simp [charListLt])
  | [], b, c :: cs => by intro _ _; simp [charListLt]
  | a :: as, b, [] => by
      intro _ h2
      exact absurd h2 (by cases b <;> simp [charListLt])
  | a :: as, b, c :: cs => by
      intro h1 h2
      cases b with
      | nil => exact absurd h1 (by simp [charListLt])
      | cons b0 bs =>
          simp only [charListLt] at h1 h2 ⊢
          by_cases hab : a.toNat < b0.toNat
          · by_cases hbc : b0.toNat < c.toNat
            · rw [if_pos (by omega)]
            · rw [if_neg hbc] at h2
              by_cases hcb : c.toNat < b0.toNat
              · rw [if_pos hcb] at h2; exact absurd h2 (by simp)
              · rw [if_pos (by omega)]
          · rw [if_neg hab] at h1
            by_cases hba : b0.toNat < a.toNat
            · rw [if_pos hba] at h1; exact absurd h1 (by simp)
            · rw [if_neg hba] at h1
              by_cases hbc : b0.toNat < c.toNat
              · rw [if_pos (by omega)]
              · rw [if_neg hbc] at h2
                by_cases hcb : c.toNat < b0.toNat
                · rw [if_pos hcb] at h2; exact absurd h2 (by simp)
                · rw [if_neg hcb] at h2
                  rw [if_neg (by omega), if_neg (by omega)]
                  exact charListLt_trans as bs cs h1 h2

theorem strLtB_asymm (a b : String) (h : strLtB a b = true) : strLtB b a = false :=
  charListLt_asymm a.data b.data h

theorem strLtB_conn (a b : String) (h1 : strLtB a b = false) (h2 : strLtB b a = false) :
    a = b :=
  String.ext (charListLt_conn a.data b.data h1 h2)

theorem strLtB_trans (a b c : String) (h1 : strLtB a b = true) (h2 : strLtB b c = true) :
    strLtB a c = true :=
  charListLt_trans a.data b.data c.data h1 h2

/-- Sortedness in the sense produced by the ListTasks sort: no later task's
identifier is smaller than an earlier one's. -/
def taskOrdered (l : List Task) : Prop :=
  l.Pairwise (fun a b => strLtB b.id a.id = false)

theorem insertTask_perm (t : Task) : ∀ l : List Task, (insertTask t l).Perm (t :: l)
  | [] => List.Perm.refl _
  | u :: rest => by
      simp only [insertTask]
      by_cases h : strLtB u.id t.id = true
      · rw [if_pos h]
        exact List.Perm.trans (List.Perm.cons u (insertTask_perm t rest))
          (List.Perm.swap t u rest)
      · rw [if_neg h]

theorem insertTask_sorted (t : Task) :
    ∀ l : List Task, taskOrdered l → taskOrdered (insertTask t l)
  | [], _ => by simp [insertTask, taskOrdered]
  | u :: rest, h => by
      rcases List.pairwise_cons.mp h with ⟨hu, hrest⟩
      simp only [insertTask]
      by_cases hut : strLtB u.id t.id = true
      · rw [if_pos hut]
        refine List.pairwise_cons.mpr ⟨?_, insertTask_sorted t rest hrest⟩
        intro x hx
        have hx2 := (insertTask_perm t rest).mem_iff.mp hx
        rcases List.mem_cons.mp hx2 with rfl | hx3
        · exact strLtB_asymm _ _ hut
        · exact hu x hx3
      · have hutf : strLtB u.id t.id = false := by
          revert hut; cases strLtB u.id t.id <;> simp
        rw [if_neg hut]
        refine List.pairwise_cons.mpr ⟨?_, h⟩
        intro x hx
        rcases List.mem_cons.mp hx with rfl | hx2
        · exact hutf
        · by_cases hxt : strLtB x.id t.id = true
          · exfalso
            have hxu := hu x hx2
            by_cases hux : strLtB u.id x.id = true
            · exact absurd (strLtB_trans _ _ _ hux hxt) (by simp [hutf])
            · have huxf : strLtB u.id x.id = false := by
                revert hux; cases strLtB u.id x.id <;> simp
              have hid : u.id = x.id := strLtB_conn _ _ huxf hxu
              rw [← hid] at hxt
              exact absurd hxt (by simp [hutf])
          · revert hxt; cases strLtB x.id t.id <;> simp

theorem sortTasks_sorted : ∀ l : List Task, taskOrdered (sortTasks l)
  | [] => by simp [sortTasks, taskOrdered]
  | t :: rest => insertTask_sorted t (sortTasks rest) (sortTasks_sorted rest)

theorem sortTasks_perm : ∀ l : List Task, (sortTasks l).Perm l
  | [] => List.Perm.refl _
  | t :: rest =>
      List.Perm.trans (insertTask_perm t (sortTasks rest))
        (List.Perm.cons t (sortTasks_perm rest))

theorem taskOrdered_strict (l : List Task) (hs : taskOrdered l)
    (hn : (l.map (fun t => t.id)).Nodup) :
    l.Pairwise (fun a b => strLtB a.id b.id = true) := by
  have hn2 : l.Pairwise (fun a b => a.id ≠ b.id) := by
    simpa [List.Nodup, List.pairwise_map] using hn
  refine (hs.and hn2).imp ?_
  intro a b hab
  rcases hab with ⟨h1, h2⟩
  by_cases hab2 : strLtB a.id b.id = true
  · exact hab2
  · exfalso
    have habf : strLtB a.id b.id = false := by
      revert hab2; cases strLtB a.id b.id <;> simp
    exact h2 (strLtB_conn _ _ habf h1)

theorem taskOrdered_unique :
    ∀ (l1 l2 : List Task), l1.Perm l2 → taskOrdered l1 → taskOrdered l2 →
      (l1.map (fun t => t.id)).Nodup → l1 = l2
  | [], l2, hp, _, _, _ => (List.Perm.eq_nil hp.symm).symm
  | a :: r1, l2, hp, hs1, hs2, hn => by
      cases l2 with
      | nil => exact absurd (List.Perm.eq_nil hp) (by simp)
      | cons b r2 =>
          have hab : a = b := by
            have haMem : a ∈ b :: r2 := hp.mem_iff.mp (List.mem_cons_self a r1)
            rcases List.mem_cons.mp haMem with h | h
            · exact h
            · have hbMem : b ∈ a :: r1 := hp.symm.mem_iff.mp (List.mem_cons_self b r2)
              rcases List.mem_cons.mp hbMem with h2 | h2
              · exact h2.symm
              · exfalso
                have hba := (List.pairwise_cons.mp hs1).1 b h2
                have hab2 := (List.pairwise_cons.mp hs2).1 a h
                have hid : a.id = b.id := strLtB_conn _ _ hab2 hba
                simp only [List.map_cons, List.nodup_cons] at hn
                exact hn.1 (hid ▸ List.mem_map_of_mem (fun t => t.id) h2)
          subst hab
          have hp2 := hp.cons_inv
          have htail := taskOrdered_unique r1 r2 hp2 (List.Pairwise.of_cons hs1)
            (List.Pairwise.of_cons hs2)
            (by simp only [List.map_cons, List.nodup_cons] at hn; exact hn.2)
          rw [htail]

theorem listTasks_ids_nodup (g : Gantt) (o : List (String × Task)) (hp : o.Perm g.tasksMap)
    (hn : (g.tasksMap.map Prod.fst).Nodup) (hid : ∀ p ∈ g.tasksMap, p.2.id = p.1) :
    ((Gantt.ListTasks g o).map (fun t => t.id)).Nodup := by
  have h1 : (Gantt.ListTasks g o).Perm (o.map (fun p => p.2)) := sortTasks_perm _
  have h2 : (o.map (fun p => p.2)).map (fun t => t.id) = o.map Prod.fst := by
    rw [List.map_map]
    apply List.map_congr_left
    intro p hpmem
    exact hid p (hp.mem_iff.mp hpmem)
  have h3 : (o.map Prod.fst).Perm (g.tasksMap.map Prod.fst) := hp.map _
  have h4 : (o.map Prod.fst).Nodup := (List.Perm.nodup_iff h3).mpr hn
  have h5 : ((o.map (fun p => p.2)).map (fun t => t.id)).Nodup := by rw [h2]; exact h4
  exact (List.Perm.nodup_iff (h1.map (fun t => t.id))).mpr h5

/-! The claims. -/

/-- C1: for every diagram (Flowchart under any node-style iteration order,
or Gantt), the URL returned by LiveURL is the fixed viewer base URL followed
by a payload that, after base64url-decoding, zlib-inflating and JSON-parsing,
yields exactly the record with the two keys `code` and `mermaid`, where
`mermaid` holds exactly the key `theme` fixed to `"default"` and `code`
equals the diagram's rendered text exactly. -/
theorem mg_c1_liveURL_roundtrip :
    (∀ (fc : Flowchart) (o : List (String × NodeStyle)), o.Perm fc.nodeStyles →
      decodeViewURL (fc.LiveURL o) = some (dataJValue (fc.StringWithOrder o))) ∧
    (∀ g : Gantt, decodeViewURL g.LiveURL = some (dataJValue g.String)) :=
  ⟨fun fc o _ => decodeViewURL_exportURL (fc.StringWithOrder o),
   fun g => decodeViewURL_exportURL g.String⟩

/-- Witness for C1 at the freshly constructed flowchart with its (empty)
node-style iteration order. -/
theorem mg_c1_witness :
    decodeViewURL (Flowchart.LiveURL NewFlowchart []) =
      some (dataJValue (Flowchart.StringWithOrder NewFlowchart [])) :=
  mg_c1_liveURL_roundtrip.1 NewFlowchart [] (List.Perm.refl _)

def cexStyleA : NodeStyle := { id := "a" }

def cexStyleB : NodeStyle := { id := "b" }

def cexFc : Flowchart := { nodeStyles := [("a", cexStyleA), ("b", cexStyleB)] }

/-- C2 counterexample: rendering is not deterministic as claimed.  For a
Flowchart with two registered node styles, two iteration orders that Go's
randomized map traversal can both produce yield different text, so two calls
of String on the same unmodified Flowchart can disagree. -/
theorem mg_c2_counterexample :
    [("a", cexStyleA), ("b", cexStyleB)].Perm cexFc.nodeStyles ∧
    [("b", cexStyleB), ("a", cexStyleA)].Perm cexFc.nodeStyles ∧
    Flowchart.StringWithOrder cexFc [("a", cexStyleA), ("b", cexStyleB)] ≠
      Flowchart.StringWithOrder cexFc [("b", cexStyleB), ("a", cexStyleA)] :=
  ⟨List.Perm.refl _, List.Perm.swap _ _ _, by decide⟩

/-- C2 (amended): Gantt rendering is deterministic, and Flowchart rendering
is deterministic whenever at most one node style is registered; in general
Flowchart.String depends on the model state plus the unspecified Go map
iteration order over the registered node styles. -/
theorem mg_c2_amended :
    (∀ (fc : Flowchart) (o1 o2 : List (String × NodeStyle)),
      o1.Perm fc.nodeStyles → o2.Perm fc.nodeStyles → fc.nodeStyles.length ≤ 1 →
      fc.StringWithOrder o1 = fc.StringWithOrder o2) ∧
    (∀ g : Gantt, Gantt.String g = Gantt.String g) := by
  constructor
  · intro fc o1 o2 h1 h2 hlen
    rcases hns : fc.nodeStyles with _ | ⟨x, rest⟩
    · rw [hns] at h1 h2
      rw [List.Perm.eq_nil h1, List.Perm.eq_nil h2]
    · rcases rest with _ | ⟨y, rest2⟩
      · rw [hns] at h1 h2
        rw [List.perm_singleton.mp h1, List.perm_singleton.mp h2]
      · rw [hns] at hlen
        simp at hlen
  · intro g
    rfl

/-- Witness for C2 (amended) at the empty flowchart and an arbitrary empty
gantt diagram. -/
theorem mg_c2_witness :
    Flowchart.StringWithOrder NewFlowchart [] = Flowchart.StringWithOrder NewFlowchart [] ∧
    Gantt.String {} = Gantt.String {} :=
  ⟨mg_c2_amended.1 NewFlowchart [] [] (List.Perm.refl _) (List.Perm.refl _) (by decide),
   mg_c2_amended.2 {}⟩

/-- C3: after any sequence of add calls starting from a new Flowchart, a
subsequent AddNode or AddSubgraph with an identifier previously used for an
entity of the same kind returns nil and leaves the whole flowchart — in
particular its entity maps, entity counts and the items render-order list —
unchanged. -/
theorem mg_c3_duplicate_add_noop (ops : List AddOp) (id : String) :
    (AddOp.node id ∈ ops →
      Flowchart.AddNode (applyAdds NewFlowchart ops) id =
        (none, applyAdds NewFlowchart ops)) ∧
    (AddOp.subgraph id ∈ ops →
      Flowchart.AddSubgraph (applyAdds NewFlowchart ops) id =
        (none, applyAdds NewFlowchart ops)) := by
  constructor
  · intro h
    have hs := applyAdds_node_isSome ops NewFlowchart id (Or.inl h)
    simp [Flowchart.AddNode, hs]
  · intro h
    have hs := applyAdds_subgraph_isSome ops NewFlowchart id (Or.inl h)
    simp [Flowchart.AddSubgraph, hs]

/-- Witness for C3 after the sequence AddNode "a"; AddSubgraph "a". -/
theorem mg_c3_witness :
    Flowchart.AddNode (applyAdds NewFlowchart [AddOp.node "a", AddOp.subgraph "a"]) "a" =
      (none, applyAdds NewFlowchart [AddOp.node "a", AddOp.subgraph "a"]) ∧
    Flowchart.AddSubgraph (applyAdds NewFlowchart [AddOp.node "a", AddOp.subgraph "a"]) "a" =
      (none, applyAdds NewFlowchart [AddOp.node "a", AddOp.subgraph "a"]) :=
  ⟨(mg_c3_duplicate_add_noop _ _).1 (List.Mem.head _),
   (mg_c3_duplicate_add_noop _ _).2 (List.Mem.tail _ (List.Mem.head _))⟩

/-- C4: for every sequence of AddEdge calls on a Flowchart with no prior
edges, the edge created by the n-th call (0-based) carries sequence index n,
GetEdge n returns exactly that edge, and ListEdges returns all edges in call
order. -/
theorem mg_c4_edge_sequence (fc : Flowchart) (ps : List (Node × Node)) (n : Nat)
    (h0 : fc.edges = []) (hn : n < ps.length) :
    Flowchart.GetEdge (addEdges fc ps) n =
      some ⟨(ps.get ⟨n, hn⟩).1, (ps.get ⟨n, hn⟩).2, EShapeArrow, "", none, n⟩ ∧
    Flowchart.ListEdges (addEdges fc ps) = (addEdges fc ps).edges ∧
    (Flowchart.ListEdges (addEdges fc ps)).map (fun e => (e.From, e.To)) = ps ∧
    (Flowchart.ListEdges (addEdges fc ps)).length = ps.length := by
  have hedges : (addEdges fc ps).edges = edgesFor 0 ps := by
    rw [addEdges_edges, h0]
    simp
  have hlen : (addEdges fc ps).edges.length = ps.length := by
    rw [hedges, edgesFor_length]
  refine ⟨?_, rfl, ?_, ?_⟩
  · simp only [Flowchart.GetEdge]
    rw [if_neg (by rw [hlen]; push_neg; omega)]
    rw [Int.toNat_natCast]
    rw [hedges, edgesFor_getElem ps 0 n hn]
    simp
  · show (addEdges fc ps).edges.map (fun e => (e.From, e.To)) = ps
    rw [hedges, edgesFor_map]
  · show (addEdges fc ps).edges.length = ps.length
    exact hlen

def witNodeA : Node := { id := "A" }

def witNodeB : Node := { id := "B" }

/-- Witness for C4 with one AddEdge call on a fresh flowchart. -/
theorem mg_c4_witness :
    Flowchart.GetEdge (addEdges NewFlowchart [(witNodeA, witNodeB)]) 0 =
      some ⟨([(witNodeA, witNodeB)].get ⟨0, by decide⟩).1,
        ([(witNodeA, witNodeB)].get ⟨0, by decide⟩).2, EShapeArrow, "", none, 0⟩ ∧
    Flowchart.ListEdges (addEdges NewFlowchart [(witNodeA, witNodeB)]) =
      (addEdges NewFlowchart [(witNodeA, witNodeB)]).edges ∧
    (Flowchart.ListEdges (addEdges NewFlowchart [(witNodeA, witNodeB)])).map
      (fun e => (e.From, e.To)) = [(witNodeA, witNodeB)] ∧
    (Flowchart.ListEdges (addEdges NewFlowchart [(witNodeA, witNodeB)])).length =
      [(witNodeA, witNodeB)].length :=
  mg_c4_edge_sequence NewFlowchart [(witNodeA, witNodeB)] 0 rfl (by decide)

/-- C5: ListTasks always returns the tasks sorted strictly-increasingly by
their identifier strings (byte-wise lexicographic order), and the result is
independent of the map iteration order, of insertion order and of section
membership: any two diagrams whose flat task maps hold the same entries list
the same sequence, whatever iteration orders their calls observe. -/
theorem mg_c5_listTasks_sorted :
    (∀ (g : Gantt) (o : List (String × Task)), o.Perm g.tasksMap →
      (g.tasksMap.map Prod.fst).Nodup → (∀ p ∈ g.tasksMap, p.2.id = p.1) →
      (Gantt.ListTasks g o).Pairwise (fun a b => strLtB a.id b.id = true)) ∧
    (∀ (g g2 : Gantt) (o o2 : List (String × Task)), o.Perm g.tasksMap →
      o2.Perm g2.tasksMap → g.tasksMap.Perm g2.tasksMap →
      (g.tasksMap.map Prod.fst).Nodup → (∀ p ∈ g.tasksMap, p.2.id = p.1) →
      Gantt.ListTasks g o = Gantt.ListTasks g2 o2) := by
  constructor
  · intro g o hp hn hid
    exact taskOrdered_strict _ (sortTasks_sorted _) (listTasks_ids_nodup g o hp hn hid)
  · intro g g2 o o2 hp hp2 hmap hn hid
    have hperm : (Gantt.ListTasks g o).Perm (Gantt.ListTasks g2 o2) := by
      refine List.Perm.trans (sortTasks_perm _) (List.Perm.trans ?_ (sortTasks_perm _).symm)
      exact List.Perm.trans (hp.map _)
        (List.Perm.trans (hmap.map _) (hp2.map _).symm)
    exact taskOrdered_unique _ _ hperm (sortTasks_sorted _) (sortTasks_sorted _)
      (listTasks_ids_nodup g o hp hn hid)

def witTaskA : Task := { id := "a" }

def witTaskB : Task := { id := "b" }

def witGantt : Gantt := { tasksMap := [("b", witTaskB), ("a", witTaskA)] }

/-- Witness for C5: a diagram whose task map holds ids "b" and "a", listed
under two different iteration orders. -/
theorem mg_c5_witness :
    (Gantt.ListTasks witGantt [("b", witTaskB), ("a", witTaskA)]).Pairwise
      (fun a b => strLtB a.id b.id = true) ∧
    Gantt.ListTasks witGantt [("b", witTaskB), ("a", witTaskA)] =
      Gantt.ListTasks witGantt [("a", witTaskA), ("b", witTaskB)] :=
  ⟨mg_c5_listTasks_sorted.1 witGantt _ (List.Perm.refl _) (by decide)
      (by intro p hp; fin_cases hp <;> rfl),
   mg_c5_listTasks_sorted.2 witGantt witGantt _ _ (List.Perm.refl _)
      (List.Perm.swap _ _ _) (List.Perm.refl _) (by decide)
      (by intro p hp; fin_cases hp <;> rfl)⟩

/-- C6: a freshly constructed Flowchart with no entities, no styles and no
default edge style renders to exactly `"graph TB\n\n\n"`, whatever order the
(empty) node-style registry is iterated in. -/
theorem mg_c6_new_flowchart_render (o : List (String × NodeStyle))
    (ho : o.Perm NewFlowchart.nodeStyles) :
    Flowchart.StringWithOrder NewFlowchart o = "graph TB\n\n\n" := by
  have h0 : o = [] := List.Perm.eq_nil ho
  subst h0
  rfl

/-- Witness for C6 at the empty iteration order. -/
theorem mg_c6_witness :
    Flowchart.StringWithOrder NewFlowchart [] = "graph TB\n\n\n" :=
  mg_c6_new_flowchart_render [] (List.Perm.refl _)

/-- C7: a freshly constructed Gantt diagram with no title, axis format,
tasks or sections renders to exactly
`"gantt\ndateFormat YYYY-MM-DDTHH:mm:ssZ\n"`. -/
theorem mg_c7_new_gantt_render :
    ∃ g : Gantt, NewGantt [] = Except.ok g ∧
      Gantt.String g = "gantt\ndateFormat YYYY-MM-DDTHH:mm:ssZ\n" :=
  ⟨{}, rfl, by decide⟩

/-- C8: whenever an optional NewGantt initializer has the wrong semantic type
— the Title value is not a string, or the AxisFormat value is neither an
axisFormat nor a string — the constructor returns an error and no diagram. -/
theorem mg_c8_new_gantt_invalid_config (init : List GoValue)
    (h : (∃ v, init[0]? = some v ∧ v.isStr = false) ∨
      (∃ v, init[1]? = some v ∧ v.isAxisOk = false)) :
    ∃ msg, NewGantt init = Except.error msg := by
  cases init with
  | nil => rcases h with ⟨v, hv, _⟩ | ⟨v, hv, _⟩ <;> simp at hv
  | cons t rest =>
      cases rest with
      | nil =>
          rcases h with ⟨v, hv, hs⟩ | ⟨v, hv, _⟩
          · have hvt : t = v := Option.some.inj hv
            cases hvt
            cases t with
            | str s => simp [GoValue.isStr] at hs
            | axisFmt s => exact ⟨_, rfl⟩
            | int n => exact ⟨_, rfl⟩
            | boolean b => exact ⟨_, rfl⟩
          · simp at hv
      | cons a rest2 =>
          rcases h with ⟨v, hv, hs⟩ | ⟨v, hv, hs⟩
          · have hvt : t = v := Option.some.inj hv
            cases hvt
            cases a with
            | str s2 =>
                cases t with
                | str s => simp [GoValue.isStr] at hs
                | axisFmt s => exact ⟨_, rfl⟩
                | int n => exact ⟨_, rfl⟩
                | boolean b => exact ⟨_, rfl⟩
            | axisFmt s2 =>
                cases t with
                | str s => simp [GoValue.isStr] at hs
                | axisFmt s => exact ⟨_, rfl⟩
                | int n => exact ⟨_, rfl⟩
                | boolean b => exact ⟨_, rfl⟩
            | int n2 => exact ⟨_, rfl⟩
            | boolean b2 => exact ⟨_, rfl⟩
          · have hva : a = v := by simpa using hv
            cases hva
            cases a with
            | str s => simp [GoValue.isAxisOk] at hs
            | axisFmt s => simp [GoValue.isAxisOk] at hs
            | int n => exact ⟨_, rfl⟩
            | boolean b => exact ⟨_, rfl⟩

/-- Witness for C8: a non-string Title value. -/
theorem mg_c8_witness : ∃ msg, NewGantt [GoValue.int 5] = Except.error msg :=
  mg_c8_new_gantt_invalid_config [GoValue.int 5] (Or.inl ⟨GoValue.int 5, rfl, rfl⟩)

/-- C9: LiveURL is pure — it is a function of the rendered text alone (two
diagrams, of either kind, with the same rendered text export the same URL) —
and its encoding chain is total: decoding the exported URL never fails, so no
partial URL is ever returned. -/
theorem mg_c9_liveURL_pure :
    (∀ (fc1 fc2 : Flowchart) (o1 o2 : List (String × NodeStyle)),
      fc1.StringWithOrder o1 = fc2.StringWithOrder o2 →
      fc1.LiveURL o1 = fc2.LiveURL o2) ∧
    (∀ g1 g2 : Gantt, Gantt.String g1 = Gantt.String g2 →
      Gantt.LiveURL g1 = Gantt.LiveURL g2) ∧
    (∀ (fc : Flowchart) (o : List (String × NodeStyle)) (g : Gantt),
      fc.StringWithOrder o = Gantt.String g → fc.LiveURL o = Gantt.LiveURL g) ∧
    (∀ text : String, decodeViewURL (exportURL text) ≠ none) :=
  ⟨fun _ _ _ _ h => congrArg exportURL h,
   fun _ _ h => congrArg exportURL h,
   fun _ _ _ h => congrArg exportURL h,
   fun text h => by rw [decodeViewURL_exportURL] at h; exact Option.noConfusion h⟩

/-- Witness for C9 at the empty flowchart and the empty rendered text. -/
theorem mg_c9_witness :
    Flowchart.LiveURL NewFlowchart [] = Flowchart.LiveURL NewFlowchart [] ∧
    decodeViewURL (exportURL "") ≠ none :=
  ⟨mg_c9_liveURL_pure.1 NewFlowchart NewFlowchart [] [] rfl,
   mg_c9_liveURL_pure.2.2.2 ""⟩

/-- C10: every list operation (ListEdges, ListNodes, ListSubgraphs,
ListSections, ListLocalTasks) returns a freshly allocated slice holding a
copy of the diagram's data: in the slice heap, the returned slice is a new
cell distinct from the stored one, it reads as the operation's result, and
writing through the returned slice leaves the stored slice — hence the
diagram's entities, entity count and render order — unchanged. -/
theorem mg_c10_list_ops_fresh :
    (∀ (fc : Flowchart) (h : SliceHeap Edge) (src pos : Nat) (v : Edge),
      src < h.cells.length → h.read src = fc.ListEdges →
      (listCopyAlloc h src).2 ≠ src ∧
      (listCopyAlloc h src).1.read (listCopyAlloc h src).2 = fc.ListEdges ∧
      ((listCopyAlloc h src).1.write (listCopyAlloc h src).2 pos v).read src =
        fc.ListEdges) ∧
    (∀ (fc : Flowchart) (o : List (String × Node)) (h : SliceHeap Node)
      (src pos : Nat) (v : Node),
      src < h.cells.length → h.read src = fc.ListNodes o →
      (listCopyAlloc h src).2 ≠ src ∧
      (listCopyAlloc h src).1.read (listCopyAlloc h src).2 = fc.ListNodes o ∧
      ((listCopyAlloc h src).1.write (listCopyAlloc h src).2 pos v).read src =
        fc.ListNodes o) ∧
    (∀ (fc : Flowchart) (o : List (String × Subgraph)) (h : SliceHeap Subgraph)
      (src pos : Nat) (v : Subgraph),
      src < h.cells.length → h.read src = fc.ListSubgraphs o →
      (listCopyAlloc h src).2 ≠ src ∧
      (listCopyAlloc h src).1.read (listCopyAlloc h src).2 = fc.ListSubgraphs o ∧
      ((listCopyAlloc h src).1.write (listCopyAlloc h src).2 pos v).read src =
        fc.ListSubgraphs o) ∧
    (∀ (g : Gantt) (h : SliceHeap Section) (src pos : Nat) (v : Section),
      src < h.cells.length → h.read src = g.ListSections →
      (listCopyAlloc h src).2 ≠ src ∧
      (listCopyAlloc h src).1.read (listCopyAlloc h src).2 = g.ListSections ∧
      ((listCopyAlloc h src).1.write (listCopyAlloc h src).2 pos v).read src =
        g.ListSections) ∧
    (∀ (g : Gantt) (h : SliceHeap Task) (src pos : Nat) (v : Task),
      src < h.cells.length → h.read src = g.ListLocalTasks →
      (listCopyAlloc h src).2 ≠ src ∧
      (listCopyAlloc h src).1.read (listCopyAlloc h src).2 = g.ListLocalTasks ∧
      ((listCopyAlloc h src).1.write (listCopyAlloc h src).2 pos v).read src =
        g.ListLocalTasks) := by
  refine ⟨?_, ?_, ?_, ?_, ?_⟩ <;>
    first
      | (intro fc h src pos v hsrc hread
         obtain ⟨h1, h2, h3⟩ := listCopyAlloc_fresh h src pos v hsrc
         exact ⟨h1, hread ▸ h2, hread ▸ h3⟩)
      | (intro fc o h src pos v hsrc hread
         obtain ⟨h1, h2, h3⟩ := listCopyAlloc_fresh h src pos v hsrc
         exact ⟨h1, hread ▸ h2, hread ▸ h3⟩)

def witHeap : SliceHeap Edge := SliceHeap.mk [[]]

def witEdge : Edge := ⟨witNodeA, witNodeB, EShapeArrow, "", none, 0⟩

/-- Witness for C10: a heap holding the empty flowchart's edges slice. -/
theorem mg_c10_witness :
    (listCopyAlloc witHeap 0).2 ≠ 0 ∧
    (listCopyAlloc witHeap 0).1.read (listCopyAlloc witHeap 0).2 =
      Flowchart.ListEdges NewFlowchart ∧
    ((listCopyAlloc witHeap 0).1.write (listCopyAlloc witHeap 0).2 0 witEdge).read 0 =
      Flowchart.ListEdges NewFlowchart :=
  mg_c10_list_ops_fresh.1 NewFlowchart witHeap 0 0 witEdge (by decide) rfl

end MG
